import Mathlib

/-!
Verification of the posish shell (a small POSIX-style command interpreter in C)
against its natural-language specification.  Each C function that a claim
depends on is shallowly embedded as an executable Lean definition; machine
integers are modelled as `Int`/`Nat`, C strings as `String`/`List Char`,
NULL-able pointers as `Option`, and the global tables (variable store, scope
stack, function table) as explicit state values threaded through the
functions.  File references such as `variables.c:133` point into the C source.
-/

namespace Posish

/-! ## Variable store (variables.c)

A `struct var` (variables.h) carries a name, a value and the flag bits
VEXPORT, VREADONLY, VUNSET and VSTRUCTFIXED, here split into four booleans.
The C store is a fixed-bucket chaining hash table; since every name occurs at
most once in the table, it is embedded as a flat association list whose
lookup (`find_var`) returns the first entry with the given name, exactly as
the bucket scan does.  List order stands for bucket/chain order and is never
significant to the embedded operations. -/

structure PVar where
  name : String
  value : String
  exported : Bool
  readonly : Bool
  unsetFlag : Bool
  structFixed : Bool
deriving Repr, DecidableEq

/-- `find_var` (variables.c:120-131): scan for the first entry with the
requested name. -/
def find_var (name : String) : List PVar → Option PVar
  | [] => none
  | v :: rest => if v.name = name then some v else find_var name rest

/-- `posish_var_set` (variables.c:133-175).  On an existing entry: a readonly
variable makes the call fail with return value 1 and the store untouched
(the C code also prints "readonly variable" to stderr); otherwise the value
is replaced in place and VUNSET cleared, all other flags kept.  On a missing
entry a fresh variable with zero flags is linked into the table.  The C code
prepends the fresh entry to its hash bucket; the embedding appends it to the
flat list, which is observationally the same for `find_var`. -/
def posish_var_set (name value : String) (vs : List PVar) : Int × List PVar :=
  match vs with
  | [] => (0, [⟨name, value, false, false, false, false⟩])
  | v :: rest =>
    if v.name = name then
      if v.readonly then (1, v :: rest)
      else (0, { v with value := value, unsetFlag := false } :: rest)
    else
      let (r, rest2) := posish_var_set name value rest
      (r, v :: rest2)

/-- `posish_var_get_value` (variables.c:182-231): the value of the first
matching entry unless it carries VUNSET. -/
def posish_var_get_value (name : String) (vs : List PVar) : Option String :=
  match find_var name vs with
  | some v => if v.unsetFlag then none else some v.value
  | none => none

/-- `posish_var_unset` (variables.c:233-270).  The first matching entry is
handled and the scan stops: readonly makes the call report an error (stderr
diagnostic, modelled by the boolean) and change nothing; a VSTRUCTFIXED
entry stays in the table with its value cleared and VUNSET raised (the C
code sets the value pointer to NULL, rendered here as `""` behind the raised
VUNSET flag, which makes `posish_var_get_value` return `none` either way);
any other entry is unlinked and freed. -/
def posish_var_unset (name : String) (vs : List PVar) : Bool × List PVar :=
  match vs with
  | [] => (false, [])
  | v :: rest =>
    if v.name = name then
      if v.readonly then (true, v :: rest)
      else if v.structFixed then
        (false, { v with value := "", unsetFlag := true } :: rest)
      else (false, rest)
    else
      let (e, rest2) := posish_var_unset name rest
      (e, v :: rest2)

/-- `posish_var_get_environ` (variables.c:291-317): one `NAME=VALUE` string
for every entry that is exported and not unset.  The C code walks the hash
buckets in table order; the embedding walks the flat list. -/
def posish_var_get_environ (vs : List PVar) : List String :=
  (vs.filter (fun v => v.exported && !v.unsetFlag)).map
    (fun v => v.name ++ "=" ++ v.value)

/-- One `struct localvar` record (variables.c:25-31): the saved flags and
value of a variable shadowed by `local`, or an `isNew` marker when `local`
created the variable. -/
structure LocalSave where
  name : String
  savedExported : Bool
  savedReadonly : Bool
  savedUnsetFlag : Bool
  savedStructFixed : Bool
  savedValue : Option String
  isNew : Bool
deriving Repr, DecidableEq

/-- The global variable state: the hash table plus the scope stack
(`current_scope` in variables.c:34-39); the head of `scopes` is the
innermost function frame. -/
structure VarState where
  vars : List PVar
  scopes : List (List LocalSave)
deriving Repr, DecidableEq

/-- Update the first entry with the given name in place. -/
def update_first_var (name : String) (f : PVar → PVar) : List PVar → List PVar
  | [] => []
  | v :: rest =>
    if v.name = name then f v :: rest
    else v :: update_first_var name f rest

/-- `posish_var_declare_local` (variables.c:414-454).  Without a scope it
falls back to `posish_var_set`.  With a scope: an *existing* variable —
readonly or not — has its flags and value saved into the frame, its VEXPORT
and VREADONLY bits cleared, and its value overwritten; a missing variable is
created through `posish_var_set` and recorded with the `isNew` marker. -/
def posish_var_declare_local (name value : String) (st : VarState) : VarState :=
  match st.scopes with
  | [] => { st with vars := (posish_var_set name value st.vars).2 }
  | frame :: outer =>
    match find_var name st.vars with
    | some v =>
      let save : LocalSave :=
        ⟨name, v.exported, v.readonly, v.unsetFlag, v.structFixed, some v.value, false⟩
      let vars2 := update_first_var name
        (fun w => { w with exported := false, readonly := false, value := value }) st.vars
      { vars := vars2, scopes := (save :: frame) :: outer }
    | none =>
      let vars2 := (posish_var_set name value st.vars).2
      let save : LocalSave := ⟨name, false, false, false, false, none, true⟩
      { vars := vars2, scopes := (save :: frame) :: outer }

/-! ### Lemmas about readonly variables -/

theorem find_var_readonly_set_fails (name value : String) (vs : List PVar) (v : PVar)
    (hf : find_var name vs = some v) (hr : v.readonly = true) :
    posish_var_set name value vs = (1, vs) := by
  induction vs with
  | nil => simp [find_var] at hf
  | cons w rest ih =>
    by_cases h : w.name = name
    · simp [find_var, h] at hf
      subst hf
      simp [posish_var_set, h, hr]
    · simp [find_var, h] at hf
      simp [posish_var_set, h, ih hf]

theorem find_var_readonly_unset_noop (name : String) (vs : List PVar) (v : PVar)
    (hf : find_var name vs = some v) (hr : v.readonly = true) :
    posish_var_unset name vs = (true, vs) := by
  induction vs with
  | nil => simp [find_var] at hf
  | cons w rest ih =>
    by_cases h : w.name = name
    · simp [find_var, h] at hf
      subst hf
      simp [posish_var_unset, h, hr]
    · simp [find_var, h] at hf
      simp [posish_var_unset, h, ih hf]

theorem find_var_set_other (name other value : String) (vs : List PVar)
    (hne : other ≠ name) :
    find_var name (posish_var_set other value vs).2 = find_var name vs := by
  have hne2 : ¬ (other = name) := hne
  induction vs with
  | nil => simp [posish_var_set, find_var, hne2]
  | cons w rest ih =>
    by_cases h : w.name = other
    · by_cases hro : w.readonly
      · simp [posish_var_set, h, hro]
      · have hwn : ¬ w.name = name := by
          rw [h]; exact hne
        simp only [posish_var_set, h, hro, if_true, if_false, Bool.false_eq_true,
          ite_false, ite_true]
        simp [find_var, hwn, hne2]
    · by_cases hwn : w.name = name
      · have hno : ¬ (name = other) := fun hh => hne2 hh.symm
        simp [posish_var_set, h, find_var, hwn, hno]
      · simp [posish_var_set, h, find_var, hwn, ih]

theorem find_var_unset_other (name other : String) (vs : List PVar)
    (hne : other ≠ name) :
    find_var name (posish_var_unset other vs).2 = find_var name vs := by
  have hne2 : ¬ (other = name) := hne
  induction vs with
  | nil => simp [posish_var_unset, find_var]
  | cons w rest ih =>
    by_cases h : w.name = other
    · have hwn : ¬ w.name = name := by
        rw [h]; exact hne
      by_cases hro : w.readonly
      · simp [posish_var_unset, h, hro]
      · by_cases hsf : w.structFixed
        · simp [posish_var_unset, h, hro, hsf, find_var, hwn, hne2]
        · simp [posish_var_unset, h, hro, hsf, find_var, hwn, hne2]
    · by_cases hwn : w.name = name
      · have hno : ¬ (name = other) := fun hh => hne2 hh.symm
        simp [posish_var_unset, h, find_var, hwn, hno]
      · simp [posish_var_unset, h, find_var, hwn, ih]

/-! ### Claim C3 — readonly variables under set / unset / local -/

/-- C3 (counterexample).  The claim quantifies over *every* operation of the
variable store, including local declaration.  But `posish_var_declare_local`
(variables.c:414-454), called with an active scope on the readonly variable
`X=1`, clears the VREADONLY (and VEXPORT) flag and overwrites the value with
`2`: the readonly variable's value and flags are changed without any error
being reported, refuting the claim as stated. -/
theorem C3_counterexample :
    posish_var_declare_local "X" "2" ⟨[⟨"X", "1", false, true, false, false⟩], [[]]⟩ =
      ⟨[⟨"X", "2", false, false, false, false⟩],
        [[⟨"X", false, true, false, false, some "1", false⟩]]⟩ ∧
    (⟨"X", "2", false, false, false, false⟩ : PVar).value ≠ "1" ∧
    (⟨"X", "2", false, false, false, false⟩ : PVar).readonly ≠ true := by
  refine ⟨by decide, by decide, by decide⟩

/-- C3 (amended).  For the `posish_var_set` and `posish_var_unset` operations
the claim holds: a variable carrying the readonly flag is never changed nor
removed.  A set or unset aimed at the readonly variable itself fails — set
returns 1, unset raises its error diagnostic — and leaves the entire store
untouched, and a set or unset of any *other* name leaves the readonly
variable's entry (value and flags) exactly as it was.  (Local declaration is
excluded: it deliberately overrides readonly, as `C3_counterexample`
shows.) -/
theorem C3_readonly_set_unset_immutable (vs : List PVar) (name : String) (v : PVar)
    (hf : find_var name vs = some v) (hr : v.readonly = true) :
    (∀ value, posish_var_set name value vs = (1, vs)) ∧
    posish_var_unset name vs = (true, vs) ∧
    (∀ other value, find_var name (posish_var_set other value vs).2 = some v) ∧
    (∀ other, find_var name (posish_var_unset other vs).2 = some v) := by
  refine ⟨fun value => find_var_readonly_set_fails name value vs v hf hr,
    find_var_readonly_unset_noop name vs v hf hr, fun other value => ?_, fun other => ?_⟩
  · by_cases h : other = name
    · subst h
      rw [find_var_readonly_set_fails other value vs v hf hr]
      exact hf
    · rw [find_var_set_other name other value vs h]
      exact hf
  · by_cases h : other = name
    · subst h
      rw [find_var_readonly_unset_noop other vs v hf hr]
      exact hf
    · rw [find_var_unset_other name other vs h]
      exact hf

/-- Witness for `C3_readonly_set_unset_immutable` on the concrete store
`[R=ro, Y=2]` with `R` readonly. -/
theorem C3_readonly_set_unset_immutable_witness :
    (∀ value, posish_var_set "R" value
        [⟨"R", "ro", false, true, false, false⟩, ⟨"Y", "2", false, false, false, false⟩] =
      (1, [⟨"R", "ro", false, true, false, false⟩, ⟨"Y", "2", false, false, false, false⟩])) ∧
    posish_var_unset "R"
        [⟨"R", "ro", false, true, false, false⟩, ⟨"Y", "2", false, false, false, false⟩] =
      (true, [⟨"R", "ro", false, true, false, false⟩, ⟨"Y", "2", false, false, false, false⟩]) ∧
    (∀ other value, find_var "R" (posish_var_set other value
        [⟨"R", "ro", false, true, false, false⟩, ⟨"Y", "2", false, false, false, false⟩]).2 =
      some ⟨"R", "ro", false, true, false, false⟩) ∧
    (∀ other, find_var "R" (posish_var_unset other
        [⟨"R", "ro", false, true, false, false⟩, ⟨"Y", "2", false, false, false, false⟩]).2 =
      some ⟨"R", "ro", false, true, false, false⟩) :=
  C3_readonly_set_unset_immutable
    [⟨"R", "ro", false, true, false, false⟩, ⟨"Y", "2", false, false, false, false⟩]
    "R" ⟨"R", "ro", false, true, false, false⟩ (by decide) (by decide)

/-! ## Simple-command execution frame (executor.c, execute_simple_command)

`execute_simple_command` (executor.c:1290-1612) first walks the
assignment-prefix list and writes every assignment straight into the shell's
own variable store with `posish_var_set` (lines 1297-1308; each raw value
has been put through `expand_word` first, so the embedding receives the
already-expanded value strings).  Nothing in the function ever removes or
restores these assignments afterwards.  When the command word later resolves
to an external command, the child environment is built in the parent by
`posish_var_get_environ` (line 1544) — i.e. from the exported entries of the
very store the prefixes were just written to — and handed to `execve`. -/

/-- Assignment-prefix loop of `execute_simple_command` (executor.c:1297-1308):
each `(name, expanded-value)` pair is applied to the store with
`posish_var_set`; a failing set (readonly) aborts the command with status 1,
modelled by `none`. -/
def apply_assignment_prefixes (assigns : List (String × String)) (vs : List PVar) :
    Option (List PVar) :=
  match assigns with
  | [] => some vs
  | (n, v) :: rest =>
    let (r, vs2) := posish_var_set n v vs
    if r ≠ 0 then none else apply_assignment_prefixes rest vs2

/-- Outcome of the external-command branch: the parent's variable store as it
stands when `execute_simple_command` returns, and the environment array the
child received. -/
structure ExternalRun where
  parentVars : List PVar
  childEnv : List String
deriving Repr, DecidableEq

/-- The external-command path of `execute_simple_command` restricted to its
effect on the variable store: assignments applied (executor.c:1297-1308),
then `env = posish_var_get_environ()` (line 1544) for the child; the parent
store is left exactly as the assignment loop wrote it (no save/restore
exists anywhere on the path through line 1611). -/
def simple_command_external_frame (assigns : List (String × String)) (vs : List PVar) :
    Option ExternalRun :=
  (apply_assignment_prefixes assigns vs).map
    (fun vs2 => ⟨vs2, posish_var_get_environ vs2⟩)

/-! ### Claim C1 — assignment prefixes on external commands -/

/-- C1 (counterexample).  Start from an empty store and run an external
command with the single prefix `X=1`.  The claim says the assignment is
placed into the child environment and the parent store is unchanged
afterwards.  The code does the opposite on both counts: the parent store now
permanently contains `X=1` (unexported, flags zero), and the child
environment is empty — the fresh variable has no VEXPORT flag, so
`posish_var_get_environ` omits it. -/
theorem C1_counterexample :
    simple_command_external_frame [("X", "1")] [] =
      some ⟨[⟨"X", "1", false, false, false, false⟩], []⟩ ∧
    find_var "X" [(⟨"X", "1", false, false, false, false⟩ : PVar)] ≠ find_var "X" [] ∧
    "X=1" ∉ ([] : List String) := by
  refine ⟨by decide, by decide, by decide⟩

theorem environ_set_fresh_unchanged (n val : String) (vs : List PVar)
    (hf : find_var n vs = none) :
    posish_var_get_environ (posish_var_set n val vs).2 = posish_var_get_environ vs := by
  induction vs with
  | nil => simp [posish_var_set, posish_var_get_environ]
  | cons w rest ih =>
    by_cases h : w.name = n
    · simp [find_var, h] at hf
    · simp [find_var, h] at hf
      simp [posish_var_set, h, posish_var_get_environ] at ih ⊢
      by_cases hx : w.exported = true ∧ w.unsetFlag = false
      · simp [List.filter, hx.1, hx.2, ih hf]
      · rcases Decidable.not_and_iff_or_not.mp hx with hx1 | hx2
        · simp [List.filter, Bool.eq_false_iff.mpr hx1, ih hf]
        · have : w.unsetFlag = true := by
            revert hx2
            cases w.unsetFlag <;> simp
          simp [List.filter, this, ih hf]

theorem find_var_set_same_fresh (n val : String) (vs : List PVar)
    (hf : find_var n vs = none) :
    find_var n (posish_var_set n val vs).2 = some ⟨n, val, false, false, false, false⟩ := by
  induction vs with
  | nil => simp [posish_var_set, find_var]
  | cons w rest ih =>
    by_cases h : w.name = n
    · simp [find_var, h] at hf
    · simp [find_var, h] at hf
      simp [posish_var_set, h, find_var, ih hf]

/-- C1 (amended).  A variable-assignment prefix on an external command is
written into the parent shell's own variable store before the fork and
persists there after the command completes; it is *not* exported, so a
prefix naming a fresh variable never shows up in the child process
environment — the child environment is identical to the one the original
store would have produced. -/
theorem C1_prefix_persists_in_parent (n val : String) (vs : List PVar)
    (hf : find_var n vs = none) :
    simple_command_external_frame [(n, val)] vs =
      some ⟨(posish_var_set n val vs).2, posish_var_get_environ (posish_var_set n val vs).2⟩ ∧
    find_var n (posish_var_set n val vs).2 = some ⟨n, val, false, false, false, false⟩ ∧
    posish_var_get_environ (posish_var_set n val vs).2 = posish_var_get_environ vs := by
  refine ⟨?_, find_var_set_same_fresh n val vs hf, environ_set_fresh_unchanged n val vs hf⟩
  have hr : (posish_var_set n val vs).1 = 0 := by
    induction vs with
    | nil => simp [posish_var_set]
    | cons w rest ih =>
      by_cases h : w.name = n
      · simp [find_var, h] at hf
      · simp [find_var, h] at hf
        simp [posish_var_set, h, ih hf]
  simp [simple_command_external_frame, apply_assignment_prefixes, hr]

/-- Witness for `C1_prefix_persists_in_parent`: prefix `X=1` on a store that
holds one exported variable `P=q`. -/
theorem C1_prefix_persists_in_parent_witness :
    simple_command_external_frame [("X", "1")] [⟨"P", "q", true, false, false, false⟩] =
      some ⟨(posish_var_set "X" "1" [⟨"P", "q", true, false, false, false⟩]).2,
        posish_var_get_environ
          (posish_var_set "X" "1" [⟨"P", "q", true, false, false, false⟩]).2⟩ ∧
    find_var "X" (posish_var_set "X" "1" [⟨"P", "q", true, false, false, false⟩]).2 =
      some ⟨"X", "1", false, false, false, false⟩ ∧
    posish_var_get_environ (posish_var_set "X" "1" [⟨"P", "q", true, false, false, false⟩]).2 =
      posish_var_get_environ [⟨"P", "q", true, false, false, false⟩] :=
  C1_prefix_persists_in_parent "X" "1" [⟨"P", "q", true, false, false, false⟩] (by decide)

/-! ## Command-word resolution (executor.c:1385-1534) -/

/-- `builtin_is_builtin` (builtin-cmds/dispatcher.c:7-47): the complete list
of builtin names the dispatcher recognizes, with no distinction between
special and regular builtins. -/
def builtin_is_builtin (name : String) : Bool :=
  name = "cd" || name = "echo" || name = "exit" || name = "export" ||
  name = "unset" || name = "set" || name = "jobs" || name = "fg" ||
  name = "bg" || name = "alias" || name = "unalias" || name = "test" ||
  name = "[" || name = "." || name = "printf" || name = "eval" ||
  name = "exec" || name = "read" || name = "kill" || name = "break" ||
  name = "continue" || name = "return" || name = "shift" || name = "wait" ||
  name = "pwd" || name = "type" || name = "trap" || name = "umask" ||
  name = "times" || name = "command" || name = "readonly" || name = "getopts" ||
  name = ":" || name = "true" || name = "false" || name = "local" ||
  name = "typeset"

/-- What the command word resolved to. -/
inductive CmdResolution where
  | func
  | builtin
  | external (exe : String)
  | notFound
deriving Repr, DecidableEq

/-- Command-word resolution order of `execute_simple_command`:
`func_get` first (executor.c:1385), then the in-process fast paths for `:`,
`true`, `false` (1453-1465) and `test`/`[` (1467-1468, also builtins), then
`builtin_is_builtin` (1471), and finally `find_executable` over `$PATH`
(1530-1534), failing with "command not found" / status 127.  `funcs` is the
set of names in the function table, `findExe` abstracts the `$PATH`/
`access(X_OK)` search of `find_executable` (executor.c:63-91). -/
def resolve_command (funcs : List String) (findExe : String → Option String)
    (cmd : String) : CmdResolution :=
  if funcs.contains cmd then .func
  else if cmd = ":" then .builtin
  else if cmd = "true" then .builtin
  else if cmd = "false" then .builtin
  else if builtin_is_builtin cmd then .builtin
  else
    match findExe cmd with
    | some exe => .external exe
    | none => .notFound

/-- The special builtins as enumerated by the specification's glossary
("Special builtin — ... e.g. `:`, `.`, `eval`, `exec`, `exit`, `export`,
`readonly`, `return`, `set`, `shift`, `trap`, `unset`").  The C code has no
such category; this list exists only to state the claim. -/
def spec_special_builtins : List String :=
  [":", ".", "eval", "exec", "exit", "export", "readonly", "return",
   "set", "shift", "trap", "unset"]

/-! ### Claim C2 — resolution order of the command word -/

/-- C2 (counterexample).  Define a shell function named `exit` — the name of
a special builtin.  The claim says the special builtin is consulted first,
so the function is never chosen; but `execute_simple_command` checks
`func_get` before any builtin test, and resolution yields the function. -/
theorem C2_counterexample :
    resolve_command ["exit"] (fun _ => none) "exit" = CmdResolution.func ∧
    "exit" ∈ spec_special_builtins ∧
    CmdResolution.func ≠ CmdResolution.builtin := by
  refine ⟨by decide, by decide, by decide⟩

/-- C2 (amended).  The actual resolution order is: shell function first, then
builtin (special and regular builtins are not distinguished; `:`, `true`,
`false`, `test` take in-process fast paths but are builtins), then `$PATH`
search.  In particular a function always shadows a builtin — even one whose
name the spec calls a special builtin — and a builtin always shadows a
`$PATH` executable. -/
theorem C2_resolution_order (funcs : List String) (findExe : String → Option String)
    (cmd : String) :
    (funcs.contains cmd = true → resolve_command funcs findExe cmd = .func) ∧
    (funcs.contains cmd = false →
      (cmd = ":" ∨ cmd = "true" ∨ cmd = "false" ∨ builtin_is_builtin cmd = true) →
      resolve_command funcs findExe cmd = .builtin) ∧
    (funcs.contains cmd = false → cmd ∈ spec_special_builtins →
      resolve_command funcs findExe cmd = .builtin) ∧
    (funcs.contains cmd = false → ¬ (cmd = ":" ∨ cmd = "true" ∨ cmd = "false") →
      builtin_is_builtin cmd = false →
      resolve_command funcs findExe cmd =
        (match findExe cmd with
          | some exe => .external exe
          | none => .notFound)) := by
  refine ⟨fun hc => ?_, fun hc hb => ?_, fun hc hs => ?_, fun hc hfast hb => ?_⟩
  · have hm : cmd ∈ funcs := by simpa using hc
    simp [resolve_command, hm]
  · have hm : cmd ∉ funcs := by simpa using hc
    rcases hb with h | h | h | h
    · subst h; simp [resolve_command, hm]
    · subst h; simp [resolve_command, hm]
    · subst h; simp [resolve_command, hm]
    · by_cases h1 : cmd = ":"
      · subst h1; simp [resolve_command, hm]
      · by_cases h2 : cmd = "true"
        · subst h2; simp [resolve_command, hm]
        · by_cases h3 : cmd = "false"
          · subst h3; simp [resolve_command, hm]
          · simp [resolve_command, hm, h1, h2, h3, h]
  · have hm : cmd ∉ funcs := by simpa using hc
    have hb : builtin_is_builtin cmd = true := by
      fin_cases hs <;> decide
    by_cases h1 : cmd = ":"
    · subst h1; simp [resolve_command, hm]
    · by_cases h2 : cmd = "true"
      · subst h2; simp [resolve_command, hm]
      · by_cases h3 : cmd = "false"
        · subst h3; simp [resolve_command, hm]
        · simp [resolve_command, hm, h1, h2, h3, hb]
  · have hm : cmd ∉ funcs := by simpa using hc
    push_neg at hfast
    simp [resolve_command, hm, hfast.1, hfast.2.1, hfast.2.2, hb]

/-- Witness for `C2_resolution_order` at `cmd = "ls"`, one function `f`, and
a `$PATH` search that finds `/bin/ls`. -/
theorem C2_resolution_order_witness :
    (["f"].contains "ls" = true →
      resolve_command ["f"] (fun c => if c = "ls" then some "/bin/ls" else none) "ls" =
        .func) ∧
    (["f"].contains "ls" = false →
      ("ls" = ":" ∨ "ls" = "true" ∨ "ls" = "false" ∨ builtin_is_builtin "ls" = true) →
      resolve_command ["f"] (fun c => if c = "ls" then some "/bin/ls" else none) "ls" =
        .builtin) ∧
    (["f"].contains "ls" = false → "ls" ∈ spec_special_builtins →
      resolve_command ["f"] (fun c => if c = "ls" then some "/bin/ls" else none) "ls" =
        .builtin) ∧
    (["f"].contains "ls" = false → ¬ ("ls" = ":" ∨ "ls" = "true" ∨ "ls" = "false") →
      builtin_is_builtin "ls" = false →
      resolve_command ["f"] (fun c => if c = "ls" then some "/bin/ls" else none) "ls" =
        (match (fun c => if c = "ls" then some "/bin/ls" else none) "ls" with
          | some exe => .external exe
          | none => .notFound)) :=
  C2_resolution_order ["f"] (fun c => if c = "ls" then some "/bin/ls" else none) "ls"

/-! ## `$!` and foreground external commands (claim C9) -/

/-- The `last_bg_pid` cell of variables.c:555-560 (initially -1). -/
structure BgState where
  lastBgPid : Int
deriving Repr, DecidableEq

/-- `posish_var_set_last_bg_pid` (variables.c:558-560). -/
def posish_var_set_last_bg_pid (pid : Int) (_s : BgState) : BgState :=
  { lastBgPid := pid }

/-- `posish_var_get_last_bg_pid` (variables.c:562-564). -/
def posish_var_get_last_bg_pid (s : BgState) : Int :=
  s.lastBgPid

/-- The parent branch of the *foreground* external-command path
(executor.c:1586-1611): after the fork the parent calls `job_add` and then
`posish_var_set_last_bg_pid(pid)` (line 1599) with the synchronous child's
pid, before waiting for it with `job_wait`. -/
def external_parent_records_pid (pid : Int) (s : BgState) : BgState :=
  posish_var_set_last_bg_pid pid s

/-- The parent branch of an async list `cmd &` (executor.c:1656-1668), which
also records the background child's pid (line 1667). -/
def async_list_parent_records_pid (pid : Int) (s : BgState) : BgState :=
  posish_var_set_last_bg_pid pid s

/-- Expansion of the special parameter `$!` (executor.c:954-957): the decimal
pid when `last_bg_pid > 0`, the empty string otherwise. -/
def dollar_bang (s : BgState) : String :=
  if s.lastBgPid > 0 then toString s.lastBgPid else ""

/-- C9.  After a synchronous (foreground) external command the shell records
the foreground child's pid in `last_bg_pid`, so `$!` expands to that pid —
even when a background job with a different pid was started earlier, i.e.
`$!` no longer refers to the last background job. -/
theorem C9_foreground_pid_clobbers_bang (s : BgState) (bgPid fgPid : Int) :
    posish_var_get_last_bg_pid
      (external_parent_records_pid fgPid (async_list_parent_records_pid bgPid s)) = fgPid ∧
    (0 < fgPid →
      dollar_bang (external_parent_records_pid fgPid (async_list_parent_records_pid bgPid s)) =
        toString fgPid) ∧
    (fgPid ≠ bgPid →
      posish_var_get_last_bg_pid
        (external_parent_records_pid fgPid (async_list_parent_records_pid bgPid s)) ≠ bgPid) := by
  refine ⟨rfl, fun h => ?_, fun h => h⟩
  simp [dollar_bang, external_parent_records_pid, async_list_parent_records_pid,
    posish_var_set_last_bg_pid, h]

/-- Witness for `C9_foreground_pid_clobbers_bang`: background pid 41, then a
foreground external command with pid 57. -/
theorem C9_foreground_pid_clobbers_bang_witness :
    posish_var_get_last_bg_pid
      (external_parent_records_pid 57 (async_list_parent_records_pid 41 ⟨-1⟩)) = 57 ∧
    ((0 : Int) < 57 →
      dollar_bang (external_parent_records_pid 57 (async_list_parent_records_pid 41 ⟨-1⟩)) =
        toString (57 : Int)) ∧
    ((57 : Int) ≠ 41 →
      posish_var_get_last_bg_pid
        (external_parent_records_pid 57 (async_list_parent_records_pid 41 ⟨-1⟩)) ≠ 41) :=
  C9_foreground_pid_clobbers_bang ⟨-1⟩ 41 57

/-! ## Word expansion (executor.c:330-1204)

`expand_word_internal` is one scanning pass over the word.  The embedding
follows the C loop branch by branch.  Three re-entrant sub-evaluations are
abstracted as oracle functions carried in `ExpEnv` — command substitution
(`execute_subshell_capture`, which re-runs lexer/parser/executor), the
`${...}` parameter-modifier branch (executor.c:738-917) and arithmetic
evaluation (`expand_word` + `evaluate_arithmetic`) — together with the
home-directory lookup of `expand_tilde`.  No theorem below exercises these
oracle branches; the scanning, quoting, `$NAME`/special-parameter and
IFS-splitting logic that the claims are about is embedded in full. -/

/-- The backslash character. -/
def bslash : Char := Char.ofNat 92

/-- The single-quote character. -/
def squote : Char := Char.ofNat 39

/-- The double-quote character. -/
def dquote : Char := Char.ofNat 34

/-- The backquote character. -/
def bquote : Char := Char.ofNat 96

/-- C `isspace` in the POSIX locale: space, tab, newline, vertical tab, form
feed, carriage return. -/
def c_isspace (c : Char) : Bool :=
  c = ' ' || c = Char.ofNat 9 || c = Char.ofNat 10 || c = Char.ofNat 11 ||
  c = Char.ofNat 12 || c = Char.ofNat 13

/-- `is_ifs` (executor.c:465-470); `ifs` comes from the `ifsval()` macro
(variables.h:36) and is never NULL, so only the `strchr` arm is live. -/
def is_ifs (c : Char) (ifs : String) : Bool :=
  ifs.data.contains c

/-- `is_ifs_whitespace` (executor.c:472-477). -/
def is_ifs_whitespace (c : Char) (ifs : String) : Bool :=
  ifs.data.contains c && c_isspace c

/-- Environment of one expansion: the shell state read by
`expand_word_internal` plus the oracles for its re-entrant branches. -/
structure ExpEnv where
  ifs : String
  positionals : List String
  vars : List PVar
  lastStatus : Int
  shellPid : Int
  lastBgPid : Int
  subshellCapture : String → String
  braceOracle : String → String
  arithOracle : String → Int
  tildeOracle : String → String

/-- Mutable locals of the `expand_word_internal` loop: the accumulated result
fields, the current string-builder, and the `push_empty_at_end` /
`saw_quotes` flags. -/
structure ExpSt where
  results : List String
  sb : String
  pushEmpty : Bool
  sawQuotes : Bool
deriving Repr, DecidableEq

/-- The value-splitting loop that the C code repeats verbatim after each
expansion performed in unquoted splitting context (executor.c:984-1013,
1038-1067): walk the expanded value, treating IFS whitespace runs as one
delimiter, a lone non-whitespace IFS character as one delimiter (with
flanking whitespace), and skipping IFS whitespace that precedes the very
first character of the very first field.  The `fuel` argument only bounds
the recursion so that the definition is structural; every step of the C
loop strictly advances its pointer, so calling with `fuel = l.length` (as
`split_or_append` does) never exhausts it. -/
def split_value (ifs : String) : Nat → ExpSt → List Char → ExpSt
  | 0, st, _ => st
  | _ + 1, st, [] => st
  | fuel + 1, st, c :: rest =>
    if is_ifs c ifs then
      if is_ifs_whitespace c ifs && st.results.isEmpty && st.sb.isEmpty then
        split_value ifs fuel st (rest.dropWhile (fun d => is_ifs_whitespace d ifs))
      else
        let st2 : ExpSt := { st with results := st.results ++ [st.sb], sb := "" }
        if is_ifs_whitespace c ifs then
          match rest.dropWhile (fun d => is_ifs_whitespace d ifs) with
          | [] => { st2 with pushEmpty := false }
          | d :: p2 =>
            if is_ifs d ifs && !is_ifs_whitespace d ifs then
              split_value ifs fuel { st2 with pushEmpty := false }
                (p2.dropWhile (fun e => is_ifs_whitespace e ifs))
            else
              split_value ifs fuel { st2 with pushEmpty := false } (d :: p2)
        else
          split_value ifs fuel { st2 with pushEmpty := true }
            (rest.dropWhile (fun d => is_ifs_whitespace d ifs))
    else
      split_value ifs fuel { st with sb := st.sb.push c, pushEmpty := true } rest

/-- Scanner of the `$((...))` arithmetic branch (executor.c:613-630): walk
with a nesting counter over single parentheses until an unnested `)` is
immediately followed by another `)`; return the expression text and the
remainder after the double parenthesis, or `none` when the end of the word is
reached first (in which case the C code consumes the rest of the word and
appends nothing). -/
def scanArith (n : Nat) : List Char → Option (List Char × List Char)
  | [] => none
  | [_] => none
  | c :: d :: rest =>
    if c = '(' then (scanArith (n + 1) (d :: rest)).map (fun p => (c :: p.1, p.2))
    else if c = ')' then
      if n > 0 then (scanArith (n - 1) (d :: rest)).map (fun p => (c :: p.1, p.2))
      else if d = ')' then some ([], rest)
      else (scanArith n (d :: rest)).map (fun p => (c :: p.1, p.2))
    else (scanArith n (d :: rest)).map (fun p => (c :: p.1, p.2))

/-- Scanner of the `$( ... )` command-substitution branch
(executor.c:681-689): nesting starts at 1 and the scan consumes up to and
including the parenthesis that closes it; `none` when it never closes. -/
def scanCmdSub (n : Nat) : List Char → Option (List Char × List Char)
  | [] => none
  | c :: rest =>
    if c = '(' then (scanCmdSub (n + 1) rest).map (fun p => (c :: p.1, p.2))
    else if c = ')' then
      if n = 1 then some ([], rest)
      else (scanCmdSub (n - 1) rest).map (fun p => (c :: p.1, p.2))
    else (scanCmdSub n rest).map (fun p => (c :: p.1, p.2))

/-- Scanner of the backquote branch (executor.c:1023-1033): collect the
command text verbatim until the closing backquote, stepping over a
backslash-backquote pair as two command characters; the closing backquote is
consumed when present. -/
def scanBacktick : List Char → List Char × List Char
  | [] => ([], [])
  | c :: rest =>
    if c = bquote then ([], rest)
    else if c = bslash then
      match rest with
      | d :: rest2 =>
        if d = bquote then
          let p := scanBacktick rest2
          (c :: d :: p.1, p.2)
        else
          let p := scanBacktick (d :: rest2)
          (c :: p.1, p.2)
      | [] => ([c], [])
    else
      let p := scanBacktick rest
      (c :: p.1, p.2)
termination_by l => l.length
decreasing_by
  · simp only [List.length_cons]; omega
  · simp only [List.length_cons]; omega
  · simp only [List.length_cons]; omega

/-- `posish_var_get_positional_value` (variables.c:508-516): index 0 reads
the variable `0` from the store; indices 1..count read the positional array;
anything else is NULL. -/
def get_positional_value (positionals : List String) (vars : List PVar) (idx : Nat) :
    Option String :=
  if idx = 0 then posish_var_get_value "0" vars
  else if 1 ≤ idx ∧ idx ≤ positionals.length then positionals.get? (idx - 1)
  else none

/-- C `atoi` restricted to the non-negative strings it is applied to here:
the numeric value of the leading run of digits. -/
def atoi_digits : List Char → Nat → Nat
  | [], acc => acc
  | c :: rest, acc =>
    if c.isDigit then atoi_digits rest (acc * 10 + (c.toNat - 48)) else acc

def c_atoi (s : String) : Nat :=
  atoi_digits s.data 0

/-- Value of `$name` for a scanned parameter name (executor.c:940-980), in
the exact order of the C if-chain: `?`, `$`, `-`, `#`, `!`, `@`/`*` (the
positional parameters joined with single spaces; NULL positional array —
zero parameters — yields the empty string), a leading digit (single-digit
positional access via `atoi`), and finally the variable store. -/
def dollar_value (env : ExpEnv) (nm : String) : Option String :=
  if nm = "?" then some (toString env.lastStatus)
  else if nm = "$" then some (toString env.shellPid)
  else if nm = "-" then some "im"
  else if nm = "#" then some (toString env.positionals.length)
  else if nm = "!" then some (if env.lastBgPid > 0 then toString env.lastBgPid else "")
  else if nm = "@" ∨ nm = "*" then
    some (if env.positionals.isEmpty then "" else String.intercalate " " env.positionals)
  else if (nm.data.head?.map Char.isDigit).getD false then
    get_positional_value env.positionals env.vars (c_atoi nm)
  else posish_var_get_value nm env.vars

/-- The split-or-append step shared by every expansion site
(executor.c:982-1016 and the analogous blocks): in unquoted splitting
context the expanded value runs through the IFS splitting loop, otherwise it
is appended to the current field builder (without touching
`push_empty_at_end`). -/
def split_or_append (env : ExpEnv) (allowSplit : Bool) (inQ : Nat) (st : ExpSt)
    (v : String) : ExpSt :=
  if allowSplit && inQ = 0 then split_value env.ifs v.data.length st v.data
  else { st with sb := st.sb ++ v }

/-- Is `d` one of the single-character special parameters recognized at
executor.c:920? -/
def is_special_param_char (d : Char) : Bool :=
  d = '?' || d = '$' || d = '#' || d = '!' || d = '@' || d = '*' || d = '-' || d.isDigit

/-- The main scanning loop of `expand_word_internal` (executor.c:551-1097),
branch by branch.  `inQ` is the `in_quote` local (0 unquoted, 2 inside
double quotes; the C code never assigns 1, but its dead single-quote arms
are kept).  The `${...}`, `$((...))` and command-substitution branches
consume exactly what the C scanners consume and obtain their substituted
text from the environment's oracles. -/
def ewi_loop (env : ExpEnv) (allowSplit : Bool) : Nat → Nat → ExpSt → List Char → ExpSt
  | 0, _, st, _ => st
  | _ + 1, _, st, [] => st
  | fuel + 1, inQ, st, c :: rest =>
    if c = bslash then
      let st1 := { st with pushEmpty := true }
      if inQ = 0 then
        match rest with
        | next :: r2 => ewi_loop env allowSplit fuel inQ { st1 with sb := st1.sb.push next } r2
        | [] => ewi_loop env allowSplit fuel inQ { st1 with sb := st1.sb.push bslash } []
      else if inQ = 2 then
        match rest with
        | next :: r2 =>
          if next = '$' || next = bquote || next = dquote || next = bslash then
            ewi_loop env allowSplit fuel inQ { st1 with sb := st1.sb.push next } r2
          else
            ewi_loop env allowSplit fuel inQ { st1 with sb := (st1.sb.push bslash).push next } r2
        | [] => ewi_loop env allowSplit fuel inQ { st1 with sb := st1.sb.push bslash } []
      else
        ewi_loop env allowSplit fuel inQ { st1 with sb := st1.sb.push bslash } rest
    else if c = squote then
      let st1 := { st with pushEmpty := true, sawQuotes := true }
      if inQ = 0 then
        let body := rest.takeWhile (fun ch => ch ≠ squote)
        let after := rest.dropWhile (fun ch => ch ≠ squote)
        ewi_loop env allowSplit fuel inQ { st1 with sb := st1.sb ++ String.mk body } (after.drop 1)
      else
        ewi_loop env allowSplit fuel inQ { st1 with sb := st1.sb.push squote } rest
    else if c = dquote then
      let st1 := { st with pushEmpty := true, sawQuotes := true }
      if inQ = 0 then ewi_loop env allowSplit fuel 2 st1 rest
      else if inQ = 2 then ewi_loop env allowSplit fuel 0 st1 rest
      else ewi_loop env allowSplit fuel inQ { st1 with sb := st1.sb.push dquote } rest
    else if c = '$' then
      let st1 := { st with pushEmpty := true }
      match rest with
      | '(' :: '(' :: r2 =>
        (match harith : scanArith 0 r2 with
        | some (expr, r3) =>
          let valStr := toString (env.arithOracle (String.mk expr))
          ewi_loop env allowSplit fuel inQ (split_or_append env allowSplit inQ st1 valStr) r3
        | none => ewi_loop env allowSplit fuel inQ st1 [])
      | '(' :: r2 =>
        (match hcs : scanCmdSub 1 r2 with
        | some (cmd, r3) =>
          let out := env.subshellCapture (String.mk cmd)
          ewi_loop env allowSplit fuel inQ (split_or_append env allowSplit inQ st1 out) r3
        | none => ewi_loop env allowSplit fuel inQ st1 [])
      | '{' :: r2 =>
        let inside := r2.takeWhile (fun ch => ch ≠ '}')
        let after := r2.dropWhile (fun ch => ch ≠ '}')
        ewi_loop env allowSplit fuel inQ
          { st1 with sb := st1.sb ++ env.braceOracle (String.mk inside) } (after.drop 1)
      | [] => ewi_loop env allowSplit fuel inQ { st1 with sb := st1.sb.push '$' } []
      | d :: r2 =>
        if is_special_param_char d then
          let st2 := match dollar_value env (String.mk [d]) with
            | some v => split_or_append env allowSplit inQ st1 v
            | none => st1
          ewi_loop env allowSplit fuel inQ st2 r2
        else
          let nm := (d :: r2).takeWhile (fun ch => ch.isAlphanum || ch = '_')
          let r3 := (d :: r2).dropWhile (fun ch => ch.isAlphanum || ch = '_')
          if nm.isEmpty then
            ewi_loop env allowSplit fuel inQ { st1 with sb := st1.sb.push '$' } (d :: r2)
          else
            let st2 := match dollar_value env (String.mk nm) with
              | some v => split_or_append env allowSplit inQ st1 v
              | none => st1
            ewi_loop env allowSplit fuel inQ st2 r3
    else if c = bquote then
      let p := scanBacktick rest
      let out := env.subshellCapture (String.mk p.1)
      ewi_loop env allowSplit fuel inQ (split_or_append env allowSplit inQ st out) p.2
    else
      if allowSplit && inQ = 0 && is_ifs c env.ifs then
        let st2 : ExpSt := { st with results := st.results ++ [st.sb], sb := "" }
        if is_ifs_whitespace c env.ifs then
          match hm : rest.dropWhile (fun d => is_ifs_whitespace d env.ifs) with
          | [] => { st2 with pushEmpty := false }
          | d :: p2 =>
            if is_ifs d env.ifs && !is_ifs_whitespace d env.ifs then
              ewi_loop env allowSplit fuel inQ { st2 with pushEmpty := false }
                (p2.dropWhile (fun e => is_ifs_whitespace e env.ifs))
            else
              ewi_loop env allowSplit fuel inQ { st2 with pushEmpty := false } (d :: p2)
        else
          ewi_loop env allowSplit fuel inQ { st2 with pushEmpty := true }
            (rest.dropWhile (fun d => is_ifs_whitespace d env.ifs))
      else
        ewi_loop env allowSplit fuel inQ { st with sb := st.sb.push c, pushEmpty := true } rest
/-- Final push of `expand_word_internal` (executor.c:1099-1111): the pending
field is emitted only when `push_empty_at_end` is set and (when splitting)
the field is non-empty, or fields already exist, or quotes were seen. -/
def ewi_final (allowSplit : Bool) (st : ExpSt) : List String :=
  if st.pushEmpty && (!allowSplit || st.sb.length > 0 || !st.results.isEmpty || st.sawQuotes)
  then st.results ++ [st.sb] else st.results

/-- `expand_tilde` (executor.c:330-368): a word that does not start with `~`
is returned unchanged; the home-directory substitution for `~`-words
(`getenv("HOME")`, `getpwnam`) is delegated to the environment's oracle. -/
def expand_tilde (env : ExpEnv) (word : String) : String :=
  if word.data.head? = some '~' then env.tildeOracle word else word

/-- `expand_word_internal` (executor.c:525-1117): tilde expansion, the
leading-IFS-whitespace skip for splitting mode (lines 546-549), the scanning
loop, and the final push.  The C function returns a NULL-terminated
`char **`; the embedding returns the list of fields, with `[]` covering both
NULL and an empty array. -/
def expand_word_internal (env : ExpEnv) (word : String) (allowSplit : Bool) :
    List String :=
  let input := (expand_tilde env word).data
  let input2 :=
    if allowSplit then input.dropWhile (fun ch => is_ifs_whitespace ch env.ifs) else input
  ewi_final allowSplit (ewi_loop env allowSplit input2.length 0 ⟨[], "", !allowSplit, false⟩ input2)

/-- `has_special_chars` (executor.c:1192-1204): `$`, backquote, backslash,
single or double quote anywhere, or `~` as the first character. -/
def hsc_aux (first : Bool) : List Char → Bool
  | [] => false
  | c :: rest =>
    if c = '$' || c = bquote || c = bslash || c = squote || c = dquote then true
    else if first && c = '~' then true
    else hsc_aux false rest

def has_special_chars (s : String) : Bool :=
  hsc_aux true s.data

/-- `expand_word` (executor.c:1121-1129), the no-split entry point: a word
without special characters is returned as-is (the same pointer); otherwise
the first field of the internal expansion (`none` models the NULL result the
C code would return from an empty array). -/
def expand_word (env : ExpEnv) (w : String) : Option String :=
  if !has_special_chars w then some w
  else
    match expand_word_internal env w false with
    | [] => none
    | f :: _ => some f

/-- `expand_simple_var` (executor.c:1131-1161): the fast path for words of
the exact shape `"$NAME"` with `NAME` non-empty, all alphanumeric or
underscore and shorter than the 256-byte buffer; it returns a single field
holding the variable's value or `""`. -/
def expand_simple_var (env : ExpEnv) (w : String) : Option (List String) :=
  match w.data with
  | c0 :: c1 :: _ =>
    if c0 = dquote ∧ c1 = '$' then
      if w.length > 3 ∧ w.data.getLast? = some dquote then
        let middle := (w.data.drop 2).dropLast
        if middle.all (fun ch => ch.isAlphanum || ch = '_') then
          if w.length - 3 < 256 then
            some [(posish_var_get_value (String.mk middle) env.vars).getD ""]
          else none
        else none
      else none
    else none
  | _ => none

/-- `expand_word_split` (executor.c:1163-1167), the splitting entry point:
the `"$NAME"` fast path first, then the full internal expansion with
splitting enabled. -/
def expand_word_split (env : ExpEnv) (w : String) : List String :=
  match expand_simple_var env w with
  | some r => r
  | none => expand_word_internal env w true

/-! ### Claim C8 — expansion is the identity on plain words -/

theorem hsc_aux_eq_false (l : List Char) (first : Bool)
    (h : ∀ c ∈ l, c ∉ ['$', bquote, '~', '*', '?', '[', bslash, squote, dquote]) :
    hsc_aux first l = false := by
  induction l generalizing first with
  | nil => rfl
  | cons c rest ih =>
    have hc := h c (List.mem_cons_self c rest)
    simp only [List.mem_cons, List.not_mem_nil, or_false] at hc
    push_neg at hc
    obtain ⟨h1, h2, h3, h4, h5, h6, h7, h8, h9⟩ := hc
    simp [hsc_aux, h1, h2, h3, h7, h8, h9]
    exact ih false (fun d hd => h d (List.mem_cons_of_mem _ hd))

/-- C8.  `expand_word` (the no-split entry point) is the identity on every
word that contains none of `$`, backquote, `~`, `*`, `?`, `[`, backslash,
single quote or double quote: `has_special_chars` then reports false and the
word pointer itself is returned. -/
theorem C8_expand_word_identity (env : ExpEnv) (w : String)
    (h : ∀ c ∈ w.data, c ∉ ['$', bquote, '~', '*', '?', '[', bslash, squote, dquote]) :
    expand_word env w = some w := by
  have hh : has_special_chars w = false := hsc_aux_eq_false w.data true h
  simp [expand_word, hh]

/-- Witness for `C8_expand_word_identity` at the word `hello`. -/
theorem C8_expand_word_identity_witness :
    (∀ c ∈ ("hello" : String).data,
      c ∉ ['$', bquote, '~', '*', '?', '[', bslash, squote, dquote]) ∧
    expand_word ⟨" \t\n", [], [], 0, 0, -1, fun _ => "", fun _ => "", fun _ => 0, id⟩
      "hello" = some "hello" :=
  ⟨by decide,
   C8_expand_word_identity
     ⟨" \t\n", [], [], 0, 0, -1, fun _ => "", fun _ => "", fun _ => 0, id⟩ "hello"
     (by decide)⟩

/-! ### Claim C4 — `"$@"` and `$*` -/

/-- C4 (counterexample).  With positional parameters `a b` and `c`, the
double-quoted word `"$@"` expands to the single field `a b c` — the
parameters joined with spaces — not to one field per parameter; with zero
parameters it expands to one empty field, not zero fields.  And with
`IFS=:` and parameters `x`, `y`, unquoted `$*` expands to the single field
`x y`: the parameters are joined with a space, not with the first character
of IFS (which would give `x:y` and then split back into `x` and `y`). -/
theorem C4_counterexample :
    expand_word_split
        ⟨" \t\n", ["a b", "c"], [], 0, 0, -1, fun _ => "", fun _ => "", fun _ => 0, id⟩
        (String.mk [dquote, '$', '@', dquote]) = ["a b c"] ∧
    (["a b c"] : List String) ≠ ["a b", "c"] ∧
    expand_word_split
        ⟨" \t\n", [], [], 0, 0, -1, fun _ => "", fun _ => "", fun _ => 0, id⟩
        (String.mk [dquote, '$', '@', dquote]) = [""] ∧
    ([""] : List String) ≠ [] ∧
    expand_word_split
        ⟨":", ["x", "y"], [], 0, 0, -1, fun _ => "", fun _ => "", fun _ => 0, id⟩
        "$*" = ["x y"] ∧
    (["x y"] : List String) ≠ ["x", "y"] := by
  refine ⟨by decide, by decide, by decide, by decide, by decide, by decide⟩

/-- C4 (amended).  `$@` and `$*` expand identically (executor.c:958-975):
the positional parameters joined with single spaces.  Double-quoted `"$@"`
therefore yields exactly one field holding that join for every parameter
list — one *empty* field when there are zero parameters — and unquoted `$*`
yields the space-join of the parameters subsequently field-split on IFS (so
with `IFS=:` and parameters `x`, `y` it stays one field `x y`). -/
theorem C4_quoted_at_is_one_joined_field (ps : List String) :
    expand_word_split
        ⟨" \t\n", ps, [], 0, 0, -1, fun _ => "", fun _ => "", fun _ => 0, id⟩
        (String.mk [dquote, '$', '@', dquote]) = [String.intercalate " " ps] ∧
    (∀ env : ExpEnv, dollar_value env "@" = dollar_value env "*") ∧
    expand_word_split
        ⟨":", ["x", "y"], [], 0, 0, -1, fun _ => "", fun _ => "", fun _ => 0, id⟩
        "$*" = ["x y"] := by
  refine ⟨?_, fun env => by simp [dollar_value], by decide⟩
  cases ps with
  | nil => decide
  | cons a t =>
    have hd1 : ('@'.isAlphanum || '@' = '_') = false := by decide
    simp only [expand_word_split, expand_simple_var, String.mk, List.all_cons, List.all_nil, hd1]
    simp [expand_word_internal, expand_tilde, ewi_loop, ewi_final, is_ifs_whitespace, c_isspace,
      dollar_value, split_or_append, is_special_param_char, dquote, squote, bslash, bquote,
      is_ifs]

theorem length_dropWhile_le (p : Char → Bool) (l : List Char) :
    (l.dropWhile p).length ≤ l.length := by
  induction l with
  | nil => simp
  | cons c rest ih =>
    by_cases h : p c
    · rw [List.dropWhile_cons_of_pos h]
      exact Nat.le_succ_of_le ih
    · rw [List.dropWhile_cons_of_neg h]

/-! ## Redirection engine (redirection.c) -/

/-- `RedirectionType` (ast.h). -/
inductive RedirType where
  | rIn
  | rOut
  | rOutClobber
  | rAppend
  | rInDup
  | rOutDup
  | rRdwr
  | rHeredoc
  | rHeredocDash
deriving Repr, DecidableEq

/-- A `Redirection` record (ast.h): kind, target fd, the *raw* target word
stored by the parser (`ast_command_add_redirection`, ast.c:50-65, copies
`filename` verbatim from the parse-time token), and the captured heredoc
body. -/
structure Redirection where
  type : RedirType
  ioNumber : Int
  filename : String
  hereDocContent : Option String
deriving Repr, DecidableEq

/-- `open(2)` flag sets used by `handle_redirections`. -/
inductive OpenFlags where
  | rdonly
  | wronlyCreatTrunc
  | wronlyCreatAppend
  | rdwrCreat
deriving Repr, DecidableEq

/-- One observable file-descriptor action of the redirection engine.  The C
code opens the file, `dup2`s the new descriptor over the io-number and
closes the original (redirection.c:26-63, 74-86); the embedding records that
triple as one `openFileTo` event since the intermediate descriptor number is
invisible.  For heredocs the pipe / unlinked-tempfile choice (by body size
against PIPE_BUF) both amount to writing the body and dup'ing its read end
over the io-number, recorded as `heredocTo`. -/
inductive FdAction where
  | openFileTo (path : String) (flags : OpenFlags) (ioNumber : Int)
  | closeFd (fd : Int)
  | dupFdTo (src dst : Int)
  | heredocTo (body : String) (ioNumber : Int)
deriving Repr, DecidableEq

/-- `handle_redirections` (redirection.c:13-143) on its success path: each
redirection in order produces the fd action dictated by its kind.  The
target strings are used exactly as stored in the AST: a file kind passes
`r->filename` straight to `open(2)`; a dup kind closes on the literal `-`
and otherwise `atoi`s the literal text.  No expansion of any sort is applied
anywhere in the function (nor before its call sites in
`execute_simple_command`). -/
def handle_redirections (rs : List Redirection) : List FdAction :=
  rs.map (fun r =>
    match r.type with
    | .rIn => .openFileTo r.filename .rdonly r.ioNumber
    | .rOut => .openFileTo r.filename .wronlyCreatTrunc r.ioNumber
    | .rOutClobber => .openFileTo r.filename .wronlyCreatTrunc r.ioNumber
    | .rAppend => .openFileTo r.filename .wronlyCreatAppend r.ioNumber
    | .rInDup =>
      if r.filename = "-" then .closeFd r.ioNumber
      else .dupFdTo (c_atoi r.filename) r.ioNumber
    | .rOutDup =>
      if r.filename = "-" then .closeFd r.ioNumber
      else .dupFdTo (c_atoi r.filename) r.ioNumber
    | .rRdwr => .openFileTo r.filename .rdwrCreat r.ioNumber
    | .rHeredoc => .heredocTo (r.hereDocContent.getD "") r.ioNumber
    | .rHeredocDash => .heredocTo (r.hereDocContent.getD "") r.ioNumber)

/-- The redirection kinds that open a file by pathname. -/
def is_file_kind (t : RedirType) : Bool :=
  match t with
  | .rIn => true
  | .rOut => true
  | .rOutClobber => true
  | .rAppend => true
  | .rRdwr => true
  | _ => false

/-- The pathnames the engine hands to `open(2)`, in order. -/
def open_paths (l : List FdAction) : List String :=
  l.filterMap (fun a =>
    match a with
    | .openFileTo p _ _ => some p
    | _ => none)

/-! ### Claim C7 — redirection targets are (not) expanded -/

/-- C7 (counterexample).  Parse-time stores the raw word `$FILE` in the
redirection; the claim says the engine evaluates it through the one-pass
expansion before opening, so with `FILE=out.txt` the file `out.txt` is
opened.  But `handle_redirections` passes the literal text to `open(2)`:
the opened pathname is the four-character string `$FILE`, although
`expand_word` on the same word under the same variable store yields
`out.txt`. -/
theorem C7_counterexample :
    handle_redirections [⟨.rOut, 1, "$FILE", none⟩] =
      [.openFileTo "$FILE" .wronlyCreatTrunc 1] ∧
    expand_word
      ⟨" \t\n", [], [⟨"FILE", "out.txt", false, false, false, false⟩], 0, 0, -1,
        fun _ => "", fun _ => "", fun _ => 0, id⟩ "$FILE" = some "out.txt" ∧
    ("$FILE" : String) ≠ "out.txt" := by
  refine ⟨by decide, by decide, by decide⟩

/-- C7 (amended).  The redirection engine performs no expansion at all: for
every redirection list the pathnames passed to `open(2)` are exactly the
raw `filename` fields of the file-kind redirections, in order, so a target
word such as `$FILE` names a file literally called `$FILE`. -/
theorem C7_redirection_targets_are_literal (rs : List Redirection) :
    open_paths (handle_redirections rs) =
      (rs.filter (fun r => is_file_kind r.type)).map (fun r => r.filename) := by
  induction rs with
  | nil => rfl
  | cons r rest ih =>
    simp only [handle_redirections, open_paths] at ih ⊢
    simp only [List.map_cons, List.filterMap_cons, List.filter_cons]
    cases ht : r.type
    case rInDup =>
      by_cases hd : r.filename = "-" <;> simp [ht, is_file_kind, hd, ih]
    case rOutDup =>
      by_cases hd : r.filename = "-" <;> simp [ht, is_file_kind, hd, ih]
    all_goals simp [ht, is_file_kind, ih]

/-! ## Heredoc-body reader (lexer.c:327-385) -/

/-- Decompose the remaining input into lines the way the C loop does: a line
is the text up to the next newline (or end of input), and the newline, when
present, is consumed. -/
def heredoc_lines : Nat → List Char → List (List Char)
  | 0, _ => []
  | _ + 1, [] => []
  | fuel + 1, c :: cs =>
    let line := (c :: cs).takeWhile (fun ch => ch ≠ Char.ofNat 10)
    let rest := ((c :: cs).dropWhile (fun ch => ch ≠ Char.ofNat 10)).drop 1
    line :: heredoc_lines fuel rest

/-- Leading-tab stripping (lexer.c:356-358, 366-369), applied both to the
delimiter comparison and to the appended body line when the `<<-` flag is
set. -/
def strip_heredoc_tabs (stripTabs : Bool) (l : List Char) : List Char :=
  if stripTabs then l.dropWhile (fun ch => ch = Char.ofNat 9) else l

/-- `lexer_read_until_delimiter` (lexer.c:327-385): consume whole lines from
the current input position; a line that (after optional tab stripping)
equals the delimiter ends the read without being appended; every other line
is appended (after the same optional tab stripping) followed by one newline.
Returns the body and the remaining unconsumed input (the final lexer
position).  `fuel` bounds the structural recursion; every iteration of the
C loop consumes at least one byte, so `fuel = input.length` (what the
claim theorems use) is always enough. -/
def lexer_read_until_delimiter (stripTabs : Bool) (delim : String) :
    Nat → List Char → String × List Char
  | 0, input => ("", input)
  | _ + 1, [] => ("", [])
  | fuel + 1, c :: cs =>
    let line := (c :: cs).takeWhile (fun ch => ch ≠ Char.ofNat 10)
    let rest := ((c :: cs).dropWhile (fun ch => ch ≠ Char.ofNat 10)).drop 1
    let check := strip_heredoc_tabs stripTabs line
    if String.mk check = delim then ("", rest)
    else
      let p := lexer_read_until_delimiter stripTabs delim fuel rest
      (String.mk check ++ "\n" ++ p.1, p.2)

theorem string_empty_append (s : String) : "" ++ s = s := by
  cases s
  rfl

theorem string_foldl_append_init (l : List String) (a : String) :
    List.foldl (fun r s => r ++ s) a l = a ++ List.foldl (fun r s => r ++ s) "" l := by
  induction l generalizing a with
  | nil => simp
  | cons x xs ih =>
    simp only [List.foldl_cons]
    rw [ih (a ++ x), ih ("" ++ x)]
    simp [String.append_assoc]

/-! ### Claim C10 — heredoc reader with an absent delimiter -/

/-- C10.  When no line of the remaining input (compared after tab stripping
when the `<<-` flag is set) equals the delimiter, the heredoc reader
consumes the entire input without reporting any error and returns as the
body every consumed line — tab-stripped under `<<-` — with one newline
appended to each. -/
theorem C10_heredoc_reader_total (stripTabs : Bool) (delim : String) (input : List Char)
    (h : ∀ l ∈ heredoc_lines input.length input,
      String.mk (strip_heredoc_tabs stripTabs l) ≠ delim) :
    lexer_read_until_delimiter stripTabs delim input.length input =
      (String.join ((heredoc_lines input.length input).map
        (fun l => String.mk (strip_heredoc_tabs stripTabs l) ++ "\n")), []) := by
  suffices H : ∀ fuel (inp : List Char), inp.length ≤ fuel →
      (∀ l ∈ heredoc_lines fuel inp, String.mk (strip_heredoc_tabs stripTabs l) ≠ delim) →
      lexer_read_until_delimiter stripTabs delim fuel inp =
        (String.join ((heredoc_lines fuel inp).map
          (fun l => String.mk (strip_heredoc_tabs stripTabs l) ++ "\n")), []) by
    exact H input.length input (Nat.le_refl _) h
  intro fuel
  induction fuel with
  | zero =>
    intro inp hlen _
    have : inp = [] := List.length_eq_zero.mp (Nat.le_zero.mp hlen)
    subst this
    simp [lexer_read_until_delimiter, heredoc_lines, String.join]
  | succ fuel ih =>
    intro inp hlen hno
    match inp with
    | [] => simp [lexer_read_until_delimiter, heredoc_lines, String.join]
    | c :: cs =>
      have hline := hno ((c :: cs).takeWhile (fun ch => ch ≠ Char.ofNat 10))
        (by simp [heredoc_lines])
      have hrest_le :
          (((c :: cs).dropWhile (fun ch => ch ≠ Char.ofNat 10)).drop 1).length ≤ fuel := by
        have h1 : ((c :: cs).dropWhile (fun ch => ch ≠ Char.ofNat 10)).length ≤
            (c :: cs).length := length_dropWhile_le _ _
        simp only [List.length_drop, List.length_cons] at h1 ⊢
        simp only [List.length_cons] at hlen
        omega
      have hrec := ih (((c :: cs).dropWhile (fun ch => ch ≠ Char.ofNat 10)).drop 1)
        hrest_le
        (fun l hl => hno l (by
          simp only [heredoc_lines, List.mem_cons]
          exact Or.inr hl))
      simp only [lexer_read_until_delimiter, heredoc_lines, hline, if_false, ite_false,
        List.map_cons, hrec]
      simp only [String.join, List.foldl_cons]
      conv_rhs => rw [string_foldl_append_init]
      simp only [string_empty_append, String.append_assoc]

/-- Witness for `C10_heredoc_reader_total`: the input `abc\n\tdef` with
delimiter `EOF` and tab stripping on: both lines are consumed, the tab is
stripped, and the body is `abc\ndef\n`. -/
theorem C10_heredoc_reader_total_witness :
    (∀ l ∈ heredoc_lines ("abc\n\tdef" : String).data.length ("abc\n\tdef" : String).data,
      String.mk (strip_heredoc_tabs true l) ≠ "EOF") ∧
    lexer_read_until_delimiter true "EOF" ("abc\n\tdef" : String).data.length
        ("abc\n\tdef" : String).data =
      (String.join ((heredoc_lines ("abc\n\tdef" : String).data.length
          ("abc\n\tdef" : String).data).map
        (fun l => String.mk (strip_heredoc_tabs true l) ++ "\n")), []) :=
  ⟨by decide, C10_heredoc_reader_total true "EOF" ("abc\n\tdef" : String).data (by decide)⟩

/-! ## Executor control flow and errexit (executor.c)

`executor_execute` (executor.c:2065-2135) dispatches on the node type,
stores the status in `last_exit_status`, and then — when `set -e`
(`shell_exit_on_error`) is active, the status is non-zero, and the global
suppression flag `shell_ignore_errexit` is clear — calls `exit(status)`,
terminating the whole shell.  The suppression flag is raised (and restored)
around condition evaluation by `execute_if` (1790-1804), `execute_while`
(1819-1822), `execute_until` (1870-1873) and around the left operand by
`execute_and_or` (2043-2047).

The embedding interprets an `ENode` tree mirroring the executor:
`Except.error s` is `exit(s)` of the whole shell, `Except.ok (s, g)` a
normal return with the globals `g` (`executor_break_count`,
`executor_continue_count`, plus an execution counter `tick`).  A simple
command is abstracted to the status `execute_simple_command` would compute:
`cmd s` for a fixed status, `cmdAt f` for a status depending on how many
commands ran before (the C status depends on mutable shell state);
`breakCmd`/`continueCmd` model the break/continue builtins
(builtin-cmds/break.c: set `executor_break_count = n`, return
EXIT_BREAK = 100; continue.c likewise with 101; EXIT_RETURN = 102).
Forked children (`pipeline` stages, `subshell`) run to completion and
deliver their status — normal return and `exit()` alike — through
`waitpid`, truncated to the low 8 bits; their copies of the globals are
discarded.  `for`, `case` and function nodes are omitted: their executor
functions contain no errexit logic beyond the uniform check in
`executor_execute`, which this model applies to every node.  `fuel` bounds
loop iterations and recursion depth so that the interpreter is structural;
the claim theorems quantify over it. -/

/-- The executor globals read/written by the loop control logic, plus the
command counter that `cmdAt` leaves observe. -/
structure ExecG where
  breakCount : Int
  continueCount : Int
  tick : Nat
deriving Repr, DecidableEq

/-- Executor AST fragment (ast.h node kinds relevant to errexit). -/
inductive ENode where
  | cmd (status : Int)
  | cmdAt (f : Nat → Int)
  | breakCmd (n : Int)
  | continueCmd (n : Int)
  | pipeline (l r : ENode)
  | listNode (l : Option ENode) (r : Option ENode) (async : Bool)
  | ifNode (cond : ENode) (thenB : Option ENode) (elseB : Option ENode)
  | whileNode (cond body : ENode)
  | untilNode (cond body : ENode)
  | andNode (l r : ENode)
  | orNode (l r : ENode)
  | subshellNode (body : Option ENode)
  | groupNode (body : Option ENode)

mutual

/-- `executor_execute` (executor.c:2065-2135): `none` returns 0 before any
check (line 2066); otherwise the node-specific `execute_*` logic (inlined
below per node kind, executor.c:2076-2100) computes the status, and the
errexit tail (2104-2133) fires on a non-zero status unless the suppression
flag is set.  Forked children (`pipeline` stages, `subshellNode`) deliver
their computed status — normal return and errexit `exit()` alike — through
`waitpid` as its low 8 bits, and their copies of the globals are discarded;
the left pipeline stage's status is collected but unused (executor.c:
1640-1645).  Every inner evaluation runs on decremented fuel so the
recursion is structural; the claim theorems quantify over the fuel. -/
def exec_run : Nat → Bool → Bool → ExecG → Option ENode → Except Int (Int × ExecG)
  | _, _, _, g, none => .ok (0, g)
  | 0, _, _, g, some _ => .ok (0, g)
  | fuel + 1, eoe, ign, g, some node => do
    let (status, g2) ←
      (match node with
      | .cmd s => .ok (s, { g with tick := g.tick + 1 })
      | .cmdAt f => .ok (f g.tick, { g with tick := g.tick + 1 })
      | .breakCmd n => .ok (100, { g with breakCount := n, tick := g.tick + 1 })
      | .continueCmd n => .ok (101, { g with continueCount := n, tick := g.tick + 1 })
      | .pipeline l r =>
        -- execute_pipeline (1614-1648)
        let leftStatus :=
          match exec_run fuel eoe ign g (some l) with
          | .ok (s, _) => s % 256
          | .error s => s % 256
        let rightStatus :=
          match exec_run fuel eoe ign g (some r) with
          | .ok (s, _) => s % 256
          | .error s => s % 256
        let _ := leftStatus
        .ok (rightStatus, g)
      | .listNode l r async => do
        -- execute_list (1650-1686)
        let (ls, g1, early) ←
          (match l with
          | some ln =>
            if async then (.ok (0, g, false) : Except Int (Int × ExecG × Bool))
            else do
              let (ls, g1) ← exec_run fuel eoe ign g (some ln)
              if ls = 100 ∨ ls = 101 ∨ ls = 102 then .ok (ls, g1, true)
              else .ok (ls, g1, false)
          | none => .ok (0, g, false))
        if early then .ok (ls, g1)
        else
          match r with
          | some rn => exec_run fuel eoe ign g1 (some rn)
          | none => .ok (ls, g1)
      | .ifNode c t e => do
        -- execute_if (1790-1804): condition under shell_ignore_errexit = 1
        let (cs, g1) ← exec_run fuel eoe true g (some c)
        if cs = 0 then exec_run fuel eoe ign g1 t
        else
          match e with
          | some eb => exec_run fuel eoe ign g1 (some eb)
          | none => .ok (0, g1)
      | .whileNode c b => exec_while fuel eoe ign g c b 0
      | .untilNode c b => exec_until fuel eoe ign g c b 0
      | .andNode l r => do
        -- execute_and_or (2043-2063): left under shell_ignore_errexit = 1
        let (ls, g1) ← exec_run fuel eoe true g (some l)
        if ls = 0 then exec_run fuel eoe ign g1 (some r) else .ok (ls, g1)
      | .orNode l r => do
        let (ls, g1) ← exec_run fuel eoe true g (some l)
        if ls ≠ 0 then exec_run fuel eoe ign g1 (some r) else .ok (ls, g1)
      | .subshellNode b =>
        -- execute_subshell (1974-1998)
        let cs :=
          match exec_run fuel eoe ign g b with
          | .ok (s, _) => s % 256
          | .error s => s % 256
        .ok (cs, g)
      | .groupNode b =>
        -- execute_group (2033-2035)
        exec_run fuel eoe ign g b)
    if eoe ∧ status ≠ 0 ∧ ¬ ign then Except.error status
    else .ok (status, g2)

/-- `execute_while` (executor.c:1806-1855): condition under suppression;
a non-zero condition leaves the loop returning the last completed body
status (initially 0); body statuses 100/101/102 drive break, continue and
return exactly as the C `if` chain does, consulting and decrementing the
`executor_break_count` / `executor_continue_count` globals. -/
def exec_while (fuel : Nat) (eoe ign : Bool) (g : ExecG) (c b : ENode) (status : Int) :
    Except Int (Int × ExecG) :=
  match fuel with
  | 0 => .ok (status, g)
  | fuel + 1 => do
    let (cs, g1) ← exec_run fuel eoe true g (some c)
    if cs ≠ 0 then .ok (status, g1)
    else do
      let (bs, g2) ← exec_run fuel eoe ign g1 (some b)
      if bs = 100 then
        if g2.breakCount > 1 then .ok (100, { g2 with breakCount := g2.breakCount - 1 })
        else .ok (0, g2)
      else if bs = 101 then
        if g2.continueCount > 1 then
          .ok (101, { g2 with continueCount := g2.continueCount - 1 })
        else exec_while fuel eoe ign g2 c b 0
      else if bs = 102 then .ok (102, g2)
      else exec_while fuel eoe ign g2 c b bs

/-- `execute_until` (executor.c:1857-1906): as `exec_while` but the loop
ends when the condition succeeds. -/
def exec_until (fuel : Nat) (eoe ign : Bool) (g : ExecG) (c b : ENode) (status : Int) :
    Except Int (Int × ExecG) :=
  match fuel with
  | 0 => .ok (status, g)
  | fuel + 1 => do
    let (cs, g1) ← exec_run fuel eoe true g (some c)
    if cs = 0 then .ok (status, g1)
    else do
      let (bs, g2) ← exec_run fuel eoe ign g1 (some b)
      if bs = 100 then
        if g2.breakCount > 1 then .ok (100, { g2 with breakCount := g2.breakCount - 1 })
        else .ok (0, g2)
      else if bs = 101 then
        if g2.continueCount > 1 then
          .ok (101, { g2 with continueCount := g2.continueCount - 1 })
        else exec_until fuel eoe ign g2 c b 0
      else if bs = 102 then .ok (102, g2)
      else exec_until fuel eoe ign g2 c b bs

end

/-! ### Claim C5 — errexit behaviour -/

/-- C5 (counterexample).  Run `false && true` (left status 1) at top level
with `set -e` active and no suppression.  The claim says a non-zero status
from the *non-final* element of `&&` does not terminate the shell (and real
POSIX shells indeed continue).  In this code the left operand's failure is
suppressed only while it runs; `execute_and_or` then returns the list's
status 1, and `executor_execute`'s errexit check re-fires on the `&&` node
itself with the suppression flag clear — `exit(1)`: the shell terminates. -/
theorem C5_counterexample :
    exec_run 3 true false ⟨0, 0, 0⟩
      (some (.andNode (.cmd 1) (.cmd 0))) = Except.error 1 := rfl

/-- C5 (amended).  With `set -e` active: (a) a non-zero status from a
top-level simple command exits the shell with that status, and (b) so does
a pipeline whose last stage fails; (c) an `if` condition, (d) a `while`
condition and (e) an `until` condition may fail without terminating the
shell (there is no `elif` and no `!` pipeline negation in this shell's
grammar, so those cases from the claim cannot arise); (f) the failing
non-final element of `||` does not terminate the shell when the list
succeeds; but (g) a `&&` list short-circuited by its failing non-final
element yields the list's non-zero status, on which the errexit check fires
after all — the shell exits, unlike the claim (and POSIX) demand. -/
theorem C5_errexit_behaviour (fuel : Nat) (g : ExecG) (s : Int)
    (hs : s ≠ 0) (h0 : 0 ≤ s) (hlt : s < 256) :
    exec_run (fuel + 1) true false g (some (.cmd s)) = Except.error s ∧
    exec_run (fuel + 1 + 1) true false g
      (some (.pipeline (.cmd 0) (.cmd s))) = Except.error s ∧
    (∀ t, exec_run (fuel + 1 + 1) true false g (some (.ifNode (.cmd s) t none)) =
      .ok (0, { g with tick := g.tick + 1 })) ∧
    (∀ b, exec_run (fuel + 1 + 1 + 1) true false g (some (.whileNode (.cmd s) b)) =
      .ok (0, { g with tick := g.tick + 1 })) ∧
    exec_run 4 true false ⟨0, 0, 0⟩
      (some (.untilNode (.cmdAt (fun t => if t = 0 then 7 else 0)) (.cmd 0))) =
      .ok (0, ⟨0, 0, 3⟩) ∧
    exec_run (fuel + 1 + 1) true false g (some (.orNode (.cmd s) (.cmd 0))) =
      .ok (0, { g with tick := g.tick + 2 }) ∧
    exec_run (fuel + 1 + 1) true false g (some (.andNode (.cmd s) (.cmd 0))) =
      Except.error s := by
  have hmod : s % 256 = s := Int.emod_eq_of_lt h0 hlt
  have ha : exec_run (fuel + 1) true false g (some (.cmd s)) = Except.error s := by
    simp [exec_run, hs, bind, Except.bind]
  have hsup : ∀ g2 : ExecG, exec_run (fuel + 1) true true g2 (some (.cmd s)) =
      .ok (s, { g2 with tick := g2.tick + 1 }) := fun g2 => by
    simp [exec_run, bind, Except.bind]
  have hz : ∀ (g2 : ExecG) (ign : Bool), exec_run (fuel + 1) true ign g2 (some (.cmd 0)) =
      .ok (0, { g2 with tick := g2.tick + 1 }) := fun g2 ign => by
    simp [exec_run, bind, Except.bind]
  refine ⟨ha, ?_, fun t => ?_, fun b => ?_, rfl, ?_, ?_⟩
  · simp [exec_run, ha, hz, hmod, hs, bind, Except.bind]
  · simp [exec_run, hsup, hs, bind, Except.bind]
  · simp [exec_run, exec_while, hsup, hs, bind, Except.bind]
  · simp [exec_run, hsup, hz, hs, bind, Except.bind]
  · simp [exec_run, hsup, hs, bind, Except.bind]

/-- Witness for `C5_errexit_behaviour` at `fuel = 2`, zeroed globals and
status 7. -/
theorem C5_errexit_behaviour_witness :
    exec_run (2 + 1) true false ⟨0, 0, 0⟩ (some (.cmd 7)) = Except.error 7 ∧
    exec_run (2 + 1 + 1) true false ⟨0, 0, 0⟩
      (some (.pipeline (.cmd 0) (.cmd 7))) = Except.error 7 ∧
    (∀ t, exec_run (2 + 1 + 1) true false ⟨0, 0, 0⟩
      (some (.ifNode (.cmd 7) t none)) = .ok (0, ⟨0, 0, 0 + 1⟩)) ∧
    (∀ b, exec_run (2 + 1 + 1 + 1) true false ⟨0, 0, 0⟩
      (some (.whileNode (.cmd 7) b)) = .ok (0, ⟨0, 0, 0 + 1⟩)) ∧
    exec_run 4 true false ⟨0, 0, 0⟩
      (some (.untilNode (.cmdAt (fun t => if t = 0 then 7 else 0)) (.cmd 0))) =
      .ok (0, ⟨0, 0, 3⟩) ∧
    exec_run (2 + 1 + 1) true false ⟨0, 0, 0⟩ (some (.orNode (.cmd 7) (.cmd 0))) =
      .ok (0, ⟨0, 0, 0 + 2⟩) ∧
    exec_run (2 + 1 + 1) true false ⟨0, 0, 0⟩ (some (.andNode (.cmd 7) (.cmd 0))) =
      Except.error 7 :=
  C5_errexit_behaviour 2 ⟨0, 0, 0⟩ 7 (by decide) (by decide) (by decide)

/-! ## Parser (parser.c), lexer token interface (lexer.h) and the `-c`
entry path (main.c) -/

/-- `TokenType` (lexer.h). -/
inductive TokType where
  | tEOF
  | tWord
  | tKeyword
  | tOperator
  | tIONumber
  | tNewline
  | tError
deriving Repr, DecidableEq

/-- A lexer `Token` (lexer.h): its type and its text.  The line number is
not modelled (no diagnostic ever uses it in the parser). -/
structure Tok where
  type : TokType
  value : String
deriving Repr, DecidableEq

/-- Parser state.  The C `Parser` holds a lexer plus a one-token lookahead
buffer; since `lexer_next_token` is a pure function of the remaining input,
the embedding carries the resulting token stream directly (`toks`; an
exhausted stream stands for the lexer returning `TOKEN_EOF` forever).
`raw` is the raw input remaining at the lexer's current position, consumed
only by the heredoc body reader.  `aliasWords` abstracts the alias branch
of `parse_simple_command` (parser.c:837-852): `alias_get` composed with
re-lexing the alias text and keeping the values of its `TOKEN_WORD` tokens;
`none` means no alias is defined (every claim theorem runs with the empty
alias table, `fun _ => none`). -/
structure PState where
  toks : List Tok
  raw : List Char
  aliasWords : String → Option (List String)

/-- `parser_peek` (parser.c:31-37): the next token without consuming it; at
end of stream the lexer yields `TOKEN_EOF`. -/
def p_peek (st : PState) : Tok :=
  st.toks.headD ⟨.tEOF, ""⟩

/-- `parser_consume` (parser.c:39-43), state part: drop the buffered
token. -/
def p_advance (st : PState) : PState :=
  { st with toks := st.toks.tail }

/-- The skip-newline loops (`while (parser_peek(parser).type ==
TOKEN_NEWLINE) parser_consume(parser);`) used throughout the parser. -/
def skip_newlines (st : PState) : PState :=
  { st with toks := st.toks.dropWhile (fun t => t.type == TokType.tNewline) }

/-- `var_is_valid_name`, modelled from `posish_var_is_valid_name`
(variables.c:575-582), the canonical definition of the variable-name
predicate this repository links against: nonempty, not starting with a
digit, all characters alphanumeric or underscore. -/
def var_is_valid_name (name : String) : Bool :=
  match name.data with
  | [] => false
  | c :: _ =>
    if c.isDigit then false
    else name.data.all (fun ch => ch.isAlphanum || ch == '_')

/-- `strchr(value, '=')` splitting as `parse_simple_command` uses it: the
text before the first `=` and the text after it; `none` when no `=`
occurs. -/
def split_at_eq (s : String) : Option (String × String) :=
  match s.data.dropWhile (fun c => c != '=') with
  | [] => none
  | _ :: rest => some (String.mk (s.data.takeWhile (fun c => c != '=')), String.mk rest)

/-- Parser AST (ast.h node kinds as the parser builds them).  `Option`
fields are the pointers the C constructors may receive as `NULL`. -/
inductive PAst where
  | command (args : List String) (assigns : List (String × String))
      (redirs : List Redirection)
  | pipelineNode (left right : PAst)
  | listNode (left : PAst) (right : Option PAst) (async : Bool)
  | andNode (left right : PAst)
  | orNode (left right : PAst)
  | ifNode (cond : PAst) (thenB elseB : Option PAst)
  | whileNode (cond : PAst) (body : Option PAst)
  | untilNode (cond : PAst) (body : Option PAst)
  | forNode (var : String) (words : List String) (body : Option PAst)
  | caseNode (word : String) (items : List (List String × Option PAst))
  | subshellNode (body : Option PAst)
  | groupNode (body : Option PAst)
  | functionNode (name : String) (body : PAst)
deriving Repr

/-- The keyword set that terminates a list, shared verbatim by the checks
in `parse_list` (parser.c:556-567, 590-600, 617-627) and the break test of
`parse_compound_list` (parser.c:468-476). -/
def list_terminator_keywords : List String :=
  ["then", "else", "fi", "do", "done", "esac", "\x7d"]

/-- Is this token a list-terminating keyword? -/
def is_list_terminator_kw (t : Tok) : Bool :=
  t.type == TokType.tKeyword && list_terminator_keywords.contains t.value

/-- The operator spellings `parse_simple_command` accepts as the start of a
command (parser.c:745-748).  Note `<<-` is absent from this list. -/
def simple_command_redir_ops : List String :=
  ["<", ">", ">>", "<<", "<&", ">&", "<>", ">|"]

/-- Operator text to redirection kind (parse_redirection,
parser.c:936-946); `none` is the `return 0` fall-through. -/
def redir_op_type (v : String) : Option RedirType :=
  if v == "<" then some .rIn
  else if v == ">" then some .rOut
  else if v == ">>" then some .rAppend
  else if v == ">|" then some .rOutClobber
  else if v == "<&" then some .rInDup
  else if v == ">&" then some .rOutDup
  else if v == "<>" then some .rRdwr
  else if v == "<<" then some .rHeredoc
  else if v == "<<-" then some .rHeredocDash
  else none

/-- Default io number when no `IO_NUMBER` token preceded the operator
(parser.c:949-956). -/
def redir_default_fd (t : RedirType) : Int :=
  match t with
  | .rIn => 0
  | .rInDup => 0
  | .rHeredoc => 0
  | .rHeredocDash => 0
  | .rRdwr => 0
  | _ => 1

/-- `parse_redirection` (parser.c:922-1031).  `none` is the C `return 0`
(the caller's loop breaks); note the failure paths return the state with
whatever tokens the C code had already consumed (an io number, the
operator, a non-word target).  A heredoc body is read immediately from the
raw input with `lexer_read_until_delimiter`, after consuming one newline
token when it directly follows the target word (parser.c:1004-1024). -/
def parse_redirection (st0 : PState) : Option Redirection × PState :=
  let tok0 := p_peek st0
  let ioNum : Option Int :=
    if tok0.type == TokType.tIONumber then some (Int.ofNat (c_atoi tok0.value)) else none
  let st1 := if tok0.type == TokType.tIONumber then p_advance st0 else st0
  let tok := p_peek st1
  if tok.type == TokType.tOperator then
    match redir_op_type tok.value with
    | none => (none, st1)
    | some ty =>
      let io := ioNum.getD (redir_default_fd ty)
      let st2 := p_advance st1
      let filename := p_peek st2
      let st3 := p_advance st2
      if filename.type == TokType.tWord then
        if ty == RedirType.rHeredoc || ty == RedirType.rHeredocDash then
          let st4 := if (p_peek st3).type == TokType.tNewline then p_advance st3 else st3
          let p := lexer_read_until_delimiter (ty == RedirType.rHeredocDash)
                     filename.value st4.raw.length st4.raw
          (some ⟨ty, io, filename.value, some p.1⟩, { st4 with raw := p.2 })
        else
          (some ⟨ty, io, filename.value, none⟩, st3)
      else (none, st3)
  else (none, st1)

/-- The `parse_loop` of `parse_simple_command` (parser.c:873-910),
accumulating the command's args, assignments and redirections.  A `WORD`
containing `=` past position 0 becomes an assignment while no command name
has been seen (with no validity check on the name — parser.c:882-884
"For now, assume yes"); any other `WORD` becomes an argument and marks the
command name as seen; an `IO_NUMBER` or `OPERATOR` goes through
`parse_redirection`, whose failure breaks the loop.  `fuel` bounds the
iterations; each consumes at least one token, so the token-list length is
always enough. -/
def parse_cmd_loop :
    Nat → List String → List (String × String) → List Redirection → Bool →
      PState → List String × List (String × String) × List Redirection × PState
  | 0, args, assigns, redirs, _, st => (args, assigns, redirs, st)
  | fuel + 1, args, assigns, redirs, seen, st =>
    let token := p_peek st
    if token.type == TokType.tWord then
      match split_at_eq token.value with
      | some (nm, vl) =>
        if !seen && nm != "" then
          parse_cmd_loop fuel args (assigns ++ [(nm, vl)]) redirs seen (p_advance st)
        else
          parse_cmd_loop fuel (args ++ [token.value]) assigns redirs true (p_advance st)
      | none =>
        parse_cmd_loop fuel (args ++ [token.value]) assigns redirs true (p_advance st)
    else if token.type == TokType.tIONumber || token.type == TokType.tOperator then
      match parse_redirection st with
      | (some r, st2) => parse_cmd_loop fuel args assigns (redirs ++ [r]) seen st2
      | (none, st2) => (args, assigns, redirs, st2)
    else (args, assigns, redirs, st)

/-- The tail of `parse_simple_command` (parser.c:912-919): a command that
gathered no argument, no redirection and no assignment is freed and `NULL`
is returned; otherwise the command node. -/
def simple_command_finish
    (r : List String × List (String × String) × List Redirection × PState) :
    Option PAst × PState :=
  match r with
  | (args, assigns, redirs, st) =>
    if args.isEmpty && redirs.isEmpty && assigns.isEmpty then (none, st)
    else (some (.command args assigns redirs), st)

/-- The word-collecting loop of `parse_for_loop` (parser.c:204-221): stop
at `EOF`, `NEWLINE`, the `;` operator or the `do` keyword; any other
token's text is appended (whatever its type) and the token consumed. -/
def parse_for_words : Nat → List String → PState → List String × PState
  | 0, acc, st => (acc, st)
  | fuel + 1, acc, st =>
    let token := p_peek st
    if token.type == TokType.tEOF || token.type == TokType.tNewline then (acc, st)
    else if token.type == TokType.tOperator && token.value == ";" then (acc, st)
    else if token.type == TokType.tKeyword && token.value == "do" then (acc, st)
    else parse_for_words fuel (acc ++ [token.value]) (p_advance st)

/-- The pattern loop of `parse_case_statement` (parser.c:354-372): take a
`WORD` if present, then continue past a `|` operator, else stop (leaving
the closing token for the caller to check). -/
def parse_case_patterns : Nat → List String → PState → List String × PState
  | 0, acc, st => (acc, st)
  | fuel + 1, acc, st =>
    let token := p_peek st
    let acc2 := if token.type == TokType.tWord then acc ++ [token.value] else acc
    let st2 := if token.type == TokType.tWord then p_advance st else st
    let token2 := p_peek st2
    if token2.type == TokType.tOperator && token2.value == "|" then
      parse_case_patterns fuel acc2 (p_advance st2)
    else (acc2, st2)

mutual

/-- `parse_list` (parser.c:546-637): skip newlines; bail out (`NULL`) on a
list-terminating keyword or `;;`; parse an and-or list; then handle a `;`
or `&` separator (building a `listNode`, possibly with a `NULL` right arm),
a lone `;;`, or a newline separator. -/
def parse_list : Nat → PState → Option PAst × PState
  | 0, st => (none, st)
  | fuel + 1, st =>
    let st := skip_newlines st
    let token := p_peek st
    if is_list_terminator_kw token then (none, st)
    else if token.type == TokType.tOperator && token.value == ";;" then (none, st)
    else
      match parse_and_or fuel st with
      | (none, st) => (none, st)
      | (some left, st) =>
        let token := p_peek st
        if token.type == TokType.tOperator &&
            (token.value == ";" || token.value == "&") then
          let async := token.value == "&"
          let st := skip_newlines (p_advance st)
          let next := p_peek st
          if next.type == TokType.tEOF then (some (.listNode left none async), st)
          else if is_list_terminator_kw next then (some (.listNode left none async), st)
          else if next.type == TokType.tOperator && next.value == ";;" then
            (some (.listNode left none async), st)
          else
            match parse_list fuel st with
            | (right, st) => (some (.listNode left right async), st)
        else if token.type == TokType.tOperator && token.value == ";;" then
          (some left, st)
        else if token.type == TokType.tNewline then
          let st := p_advance st
          let next := p_peek st
          if is_list_terminator_kw next then (some left, st)
          else if next.type == TokType.tOperator && next.value == ";;" then (some left, st)
          else
            match parse_list fuel st with
            | (some right, st) => (some (.listNode left (some right) false), st)
            | (none, st) => (some left, st)
        else (some left, st)

/-- `parse_and_or` (parser.c:505-544), entry: parse a pipeline, then fold
`&&`/`||` chains. -/
def parse_and_or : Nat → PState → Option PAst × PState
  | 0, st => (none, st)
  | fuel + 1, st =>
    match parse_pipeline fuel st with
    | (none, st) => (none, st)
    | (some left, st) => parse_and_or_loop fuel left st

/-- The `while (1)` of `parse_and_or` (parser.c:509-541): on `&&`/`||`
consume the operator, skip newlines, parse the right pipeline (a `NULL`
right frees everything and returns `NULL`). -/
def parse_and_or_loop : Nat → PAst → PState → Option PAst × PState
  | 0, left, st => (some left, st)
  | fuel + 1, left, st =>
    let token := p_peek st
    if token.type == TokType.tOperator &&
        (token.value == "&&" || token.value == "||") then
      let isAnd := token.value == "&&"
      let st := skip_newlines (p_advance st)
      match parse_pipeline fuel st with
      | (none, st) => (none, st)
      | (some right, st) =>
        parse_and_or_loop fuel
          (if isAnd then .andNode left right else .orNode left right) st
    else (some left, st)

/-- `parse_pipeline` (parser.c:639-658): a simple command, then on `|`
recurse for the right side (a `NULL` right is an error). -/
def parse_pipeline : Nat → PState → Option PAst × PState
  | 0, st => (none, st)
  | fuel + 1, st =>
    match parse_simple_command fuel st with
    | (none, st) => (none, st)
    | (some left, st) =>
      let token := p_peek st
      if token.type == TokType.tOperator && token.value == "|" then
        match parse_pipeline fuel (p_advance st) with
        | (none, st) => (none, st)
        | (some right, st) => (some (.pipelineNode left right), st)
      else (some left, st)

/-- `parse_simple_command` (parser.c:704-920).  Dispatches on the first
token: a `WORD` starts a command (with the `function` extension — whose C
guard re-peeks the same buffered `WORD` token and therefore always passes
(parser.c:764-769) —, the assignment pre-check using `var_is_valid_name`,
the `name ( )` function form, and the alias lookup), `(` a subshell, a
keyword one of the compound commands, and an `IO_NUMBER` or a redirection
operator a bare-redirection command; everything else is `NULL`. -/
def parse_simple_command : Nat → PState → Option PAst × PState
  | 0, st => (none, st)
  | fuel + 1, st =>
    let token := p_peek st
    if token.type == TokType.tWord then
      if token.value == "function" then parse_function_definition fuel st
      else
        let assignPre :=
          match split_at_eq token.value with
          | some (nm, _) => nm != "" && var_is_valid_name nm
          | none => false
        if assignPre then
          simple_command_finish (parse_cmd_loop fuel [] [] [] false st)
        else
          let name := token.value
          let st := p_advance st
          let next := p_peek st
          if next.type == TokType.tOperator && next.value == "(" then
            let st := p_advance st
            let rp := p_peek st
            if rp.type == TokType.tOperator && rp.value == ")" then
              parse_function_body fuel name (p_advance st)
            else (none, st)
          else
            match st.aliasWords name with
            | some ws =>
              simple_command_finish (parse_cmd_loop fuel ws [] [] (!ws.isEmpty) st)
            | none =>
              simple_command_finish (parse_cmd_loop fuel [name] [] [] true st)
    else if token.type == TokType.tOperator && token.value == "(" then
      let st := p_advance st
      match parse_list fuel st with
      | (body, st) =>
        let t2 := p_peek st
        if t2.type == TokType.tOperator && t2.value == ")" then
          (some (.subshellNode body), p_advance st)
        else (none, st)
    else if token.type == TokType.tKeyword then
      if token.value == "if" then parse_if_statement fuel st
      else if token.value == "while" then parse_while_loop fuel st
      else if token.value == "until" then parse_until_loop fuel st
      else if token.value == "for" then parse_for_loop fuel st
      else if token.value == "case" then parse_case_statement fuel st
      else if token.value == "\x7b" then parse_group_command fuel st
      else (none, st)
    else if token.type == TokType.tIONumber then
      simple_command_finish (parse_cmd_loop fuel [] [] [] false st)
    else if token.type == TokType.tOperator &&
        simple_command_redir_ops.contains token.value then
      simple_command_finish (parse_cmd_loop fuel [] [] [] false st)
    else (none, st)

/-- `parse_if_statement` (parser.c:67-114): `if`, condition list up to
`then`, then-branch list, optional `else` branch, closing `fi`; any missing
keyword returns `NULL`. -/
def parse_if_statement : Nat → PState → Option PAst × PState
  | 0, st => (none, st)
  | fuel + 1, st =>
    let st := p_advance st
    match parse_compound_list fuel "then" st with
    | (none, st) => (none, st)
    | (some condition, st) =>
      let token := p_peek st
      if token.type == TokType.tKeyword && token.value == "then" then
        let st := p_advance st
        match parse_compound_list fuel "else" st with
        | (thenBranch, st) =>
          let token := p_peek st
          if token.type == TokType.tKeyword && token.value == "else" then
            let st := p_advance st
            match parse_compound_list fuel "fi" st with
            | (elseBranch, st) =>
              let token := p_peek st
              if token.type == TokType.tKeyword && token.value == "fi" then
                (some (.ifNode condition thenBranch elseBranch), p_advance st)
              else (none, st)
          else if token.type == TokType.tKeyword && token.value == "fi" then
            (some (.ifNode condition thenBranch none), p_advance st)
          else (none, st)
      else (none, st)

/-- `parse_while_loop` (parser.c:118-146): `while`, condition up to `do`,
body up to `done`. -/
def parse_while_loop : Nat → PState → Option PAst × PState
  | 0, st => (none, st)
  | fuel + 1, st =>
    let st := p_advance st
    match parse_compound_list fuel "do" st with
    | (none, st) => (none, st)
    | (some condition, st) =>
      let token := p_peek st
      if token.type == TokType.tKeyword && token.value == "do" then
        let st := p_advance st
        match parse_compound_list fuel "done" st with
        | (body, st) =>
          let token := p_peek st
          if token.type == TokType.tKeyword && token.value == "done" then
            (some (.whileNode condition body), p_advance st)
          else (none, st)
      else (none, st)

/-- `parse_until_loop` (parser.c:148-176): as `while` with an `untilNode`. -/
def parse_until_loop : Nat → PState → Option PAst × PState
  | 0, st => (none, st)
  | fuel + 1, st =>
    let st := p_advance st
    match parse_compound_list fuel "do" st with
    | (none, st) => (none, st)
    | (some condition, st) =>
      let token := p_peek st
      if token.type == TokType.tKeyword && token.value == "do" then
        let st := p_advance st
        match parse_compound_list fuel "done" st with
        | (body, st) =>
          let token := p_peek st
          if token.type == TokType.tKeyword && token.value == "done" then
            (some (.untilNode condition body), p_advance st)
          else (none, st)
      else (none, st)

/-- `parse_for_loop` (parser.c:178-276): `for`, a `WORD` variable name, an
optional `in` word list, optional `;`/newline separators, `do` body
`done`. -/
def parse_for_loop : Nat → PState → Option PAst × PState
  | 0, st => (none, st)
  | fuel + 1, st =>
    let st := p_advance st
    let token := p_peek st
    if token.type == TokType.tWord then
      let varName := token.value
      let st := p_advance st
      let token := p_peek st
      let pair :=
        if token.type == TokType.tKeyword && token.value == "in" then
          let st := p_advance st
          match parse_for_words fuel [] st with
          | (ws, st) =>
            let token := p_peek st
            let st :=
              if token.type == TokType.tOperator && token.value == ";" then p_advance st
              else if token.type == TokType.tNewline then p_advance st
              else st
            (ws, st)
        else ([], st)
      match pair with
      | (wordList, st) =>
        let token := p_peek st
        let st :=
          if token.type == TokType.tOperator && token.value == ";" then p_advance st
          else if token.type == TokType.tNewline then p_advance st
          else st
        let token := p_peek st
        if token.type == TokType.tKeyword && token.value == "do" then
          let st := p_advance st
          match parse_compound_list fuel "done" st with
          | (body, st) =>
            let token := p_peek st
            if token.type == TokType.tKeyword && token.value == "done" then
              (some (.forNode varName wordList body), p_advance st)
            else (none, st)
        else (none, st)
    else (none, st)

/-- `parse_case_statement` (parser.c:278-428): `case`, a `WORD`, newlines,
`in`, the item loop, and a consumed closing token that must be `esac`. -/
def parse_case_statement : Nat → PState → Option PAst × PState
  | 0, st => (none, st)
  | fuel + 1, st =>
    let st := p_advance st
    let token := p_peek st
    if token.type == TokType.tWord then
      let word := token.value
      let st := skip_newlines (p_advance st)
      let tokenIn := p_peek st
      let st := p_advance st
      if tokenIn.type == TokType.tKeyword && tokenIn.value == "in" then
        match parse_case_items fuel [] st with
        | (items, st) =>
          let tokenEnd := p_peek st
          let st := p_advance st
          if tokenEnd.type == TokType.tKeyword && tokenEnd.value == "esac" then
            (some (.caseNode word items), st)
          else (none, st)
      else (none, st)
    else (none, st)

/-- The item loop of `parse_case_statement` (parser.c:320-415): per item
skip newlines, stop before `esac`/`EOF`, consume an optional `(`, require a
`WORD` pattern, collect `|`-separated patterns, require `)`, skip newlines,
parse the commands with `parse_list` (possibly `NULL`), append the item and
consume a trailing `;;` if present.  The two error `break`s leave the
offending token unconsumed, like the C code. -/
def parse_case_items :
    Nat → List (List String × Option PAst) → PState →
      List (List String × Option PAst) × PState
  | 0, acc, st => (acc, st)
  | fuel + 1, acc, st =>
    let st := skip_newlines st
    let token := p_peek st
    if token.type == TokType.tKeyword && token.value == "esac" then (acc, st)
    else if token.type == TokType.tEOF then (acc, st)
    else
      let st := if token.type == TokType.tOperator && token.value == "(" then p_advance st
                else st
      let token := p_peek st
      if token.type == TokType.tWord then
        match parse_case_patterns fuel [] st with
        | (patterns, st) =>
          let token := p_peek st
          if token.type == TokType.tOperator && token.value == ")" then
            let st := skip_newlines (p_advance st)
            match parse_list fuel st with
            | (commands, st) =>
              let acc := acc ++ [(patterns, commands)]
              let token := p_peek st
              let st :=
                if token.type == TokType.tOperator && token.value == ";;" then p_advance st
                else st
              parse_case_items fuel acc st
          else (acc, st)
      else (acc, st)

/-- `parse_group_command` (parser.c:430-448): `{`, a compound list up to
the `}` keyword, which must be present. -/
def parse_group_command : Nat → PState → Option PAst × PState
  | 0, st => (none, st)
  | fuel + 1, st =>
    let st := p_advance st
    match parse_compound_list fuel "\x7d" st with
    | (body, st) =>
      let token := p_peek st
      if token.type == TokType.tKeyword && token.value == "\x7d" then
        (some (.groupNode body), p_advance st)
      else (none, st)

/-- `parse_compound_list` (parser.c:451-503), entry with empty
accumulator. -/
def parse_compound_list : Nat → String → PState → Option PAst × PState
  | 0, _, st => (none, st)
  | fuel + 1, terminator, st => parse_compound_list_loop fuel terminator none st

/-- The `while (1)` of `parse_compound_list` (parser.c:466-501): stop
before the terminator keyword, any list-terminating keyword, or `EOF`; skip
newlines; otherwise parse a list (a `NULL` list breaks) and chain it onto
the accumulated head with a sequential `listNode`. -/
def parse_compound_list_loop :
    Nat → String → Option PAst → PState → Option PAst × PState
  | 0, _, head, st => (head, st)
  | fuel + 1, terminator, head, st =>
    let token := p_peek st
    if token.type == TokType.tKeyword &&
        (token.value == terminator || list_terminator_keywords.contains token.value) then
      (head, st)
    else if token.type == TokType.tEOF then (head, st)
    else if token.type == TokType.tNewline then
      parse_compound_list_loop fuel terminator head (p_advance st)
    else
      match parse_list fuel st with
      | (none, st) => (head, st)
      | (some node, st) =>
        let head :=
          match head with
          | none => some node
          | some h => some (.listNode h (some node) false)
        parse_compound_list_loop fuel terminator head st

/-- `parse_function_definition` (parser.c:660-702): consume `function`,
require a `WORD` name, consume an optional `( )` pair (an unclosed `(` is
an error), then the body. -/
def parse_function_definition : Nat → PState → Option PAst × PState
  | 0, st => (none, st)
  | fuel + 1, st =>
    let st := p_advance st
    let token := p_peek st
    if token.type == TokType.tWord then
      let name := token.value
      let st := p_advance st
      let token := p_peek st
      if token.type == TokType.tOperator && token.value == "(" then
        let st := p_advance st
        let token := p_peek st
        if token.type == TokType.tOperator && token.value == ")" then
          parse_function_body fuel name (p_advance st)
        else (none, st)
      else parse_function_body fuel name st
    else (none, st)

/-- The shared function-body tail (parser.c:689-701 and 802-825): skip
newlines, parse the body with `parse_simple_command` (which dispatches to
the compound commands), and wrap it in a function node; a `NULL` body is an
error. -/
def parse_function_body : Nat → String → PState → Option PAst × PState
  | 0, _, st => (none, st)
  | fuel + 1, name, st =>
    let st := skip_newlines st
    match parse_simple_command fuel st with
    | (none, st) => (none, st)
    | (some body, st) => (some (.functionNode name body), st)

end

/-- `parser_parse` (parser.c:47-64): parse a top-level list; a `NULL`
result — empty input, but also every syntax error bubbled up as `NULL`
from the sub-parsers, none of which prints any diagnostic — is replaced by
`ast_new_command()`, the empty command.  The `Option` codomain mirrors the
returned C pointer; the function never actually produces `none`. -/
def parser_parse (fuel : Nat) (st : PState) : Option PAst :=
  match parse_list fuel st with
  | (none, _) => some (.command [] [] [])
  | (some node, _) => some node

/-- The `-c` execution path of `main` (main.c:358-379) after
`try_fast_command` declines (it declines any string that is not blank, a
newline-free comment, a plain assignment or a lone `:`, main.c:192-234):
parse the command string; a non-null tree is executed and its status
returned (`execStatus` abstracts `executor_execute`); a null tree would
print `parse error` and return 2. -/
def main_c_status (execStatus : PAst → Int) (fuel : Nat) (st : PState) : Int :=
  match parser_parse fuel st with
  | some ast => execStatus ast
  | none => 2

/-- `execute_simple_command` on a command node with no assignments and no
argument words (executor.c:1290-1314): the assignment loop runs zero times
and the `arg_count == 0` branch returns status 0.  Other node shapes are
outside this fragment. -/
def execute_simple_command_empty : PAst → Option Int
  | .command [] [] _ => some 0
  | _ => none

/-! ### Claim C6 — parser syntax-error behaviour -/

/-- C6 (counterexample).  The syntactically invalid input `if true` — the
token stream `KEYWORD(if) WORD(true)` then end of input, exactly what
`lexer_next_token` yields (keyword classification, lexer.c:300-306) — does
not produce a null tree and status 2 as claimed: `parse_if_statement` fails
on the missing `then` and returns `NULL` silently, every caller passes the
`NULL` up without printing anything, and `parser_parse` replaces it with
the *empty command* node.  `main`'s `-c` path therefore takes the execute
branch; the empty command runs as a no-op with status 0 (its status per
`execute_simple_command`, here supplied as the executor oracle), not 2. -/
theorem C6_counterexample :
    parser_parse 32 ⟨[⟨.tKeyword, "if"⟩, ⟨.tWord, "true"⟩], [], fun _ => none⟩ =
      some (.command [] [] []) ∧
    main_c_status (fun a => (execute_simple_command_empty a).getD 1) 32
      ⟨[⟨.tKeyword, "if"⟩, ⟨.tWord, "true"⟩], [], fun _ => none⟩ = 0 ∧
    ((0 : Int) ≠ 2) :=
  ⟨rfl, rfl, by decide⟩

/-- C6 (amended).  The parser never returns a null tree and never reports
a diagnostic: every sub-parser failure is silently converted by
`parser_parse` into the empty command node, so for *every* token stream
the `-c` path of `main` takes the execute branch and returns the
executor's status for the parsed tree — the `parse error` / status-2
branch is unreachable.  A syntactically invalid non-interactive input thus
runs as a no-op and the shell exits 0, not 2. -/
theorem C6_parser_never_returns_null (fuel : Nat) (st : PState)
    (execStatus : PAst → Int) :
    parser_parse fuel st ≠ none ∧
    main_c_status execStatus fuel st =
      execStatus ((parser_parse fuel st).getD (PAst.command [] [] [])) := by
  unfold main_c_status parser_parse
  rcases hp : parse_list fuel st with ⟨o, st2⟩
  cases o <;> simp

end Posish
